import Mathlib

/-!
Verification development for the ToolScript repository: a shallow embedding of
the tokenizer (`tokenize`), the recursive-descent parser (`parseToolScript`)
and the tree-walking interpreter (`executeToolScript`), followed by theorems
settling the behavioural claims about them.

Conventions of the embedding:
* JavaScript runtime values are modelled by `JSONLike`; the extra constructor
  `undef` models the JavaScript value `undefined`, which arises from
  out-of-range indexing and is also the sentinel a block returns when no
  `RETURN` statement executed.
* JavaScript numbers are modelled by `ℚ`.  The claims under consideration only
  exercise decimal literals and integer arithmetic-free comparisons, so the
  floating-point representation is immaterial to them.
* Thrown JavaScript exceptions are modelled by `Except String`.
* `Date.now()` is modelled by an explicit clock oracle `ℕ → ℤ`: the k-th read
  of the wall clock returns `clock k`.  Promises/`await` disappear: a
  capability is a pure function that may throw.
-/

namespace ToolScript

/-- JavaScript values flowing through the interpreter (the `JSONLike` type of
the source, extended with `undef` for the runtime value `undefined`). -/
inductive JSONLike : Type where
  | undef : JSONLike
  | null : JSONLike
  | bool (b : Bool) : JSONLike
  | num (q : ℚ) : JSONLike
  | str (s : String) : JSONLike
  | arr (items : List JSONLike) : JSONLike
  | obj (entries : List (String × JSONLike)) : JSONLike
deriving Repr

/-- A JavaScript object / environment: ordered association list; keys unique
by construction of the operations below (JS object insertion-order update). -/
abbrev Env := List (String × JSONLike)

/-- `o[k]` as an `Option` (first matching key). -/
def envLookup (e : Env) (k : String) : Option JSONLike :=
  (e.find? (fun p => p.1 == k)).map (·.2)

/-- `Object.prototype.hasOwnProperty.call(o, k)`. -/
def envHas (e : Env) (k : String) : Bool :=
  (envLookup e k).isSome

/-- `o[k]`, which is `undefined` when the key is absent. -/
def envGet (e : Env) (k : String) : JSONLike :=
  ((envLookup e k).getD .undef)

/-- `o[k] = v`: update in place if the key exists (JS keeps the original
insertion position), otherwise append. -/
def envSet : Env → String → JSONLike → Env
  | [], k, v => [(k, v)]
  | (k', v') :: rest, k, v =>
      if k' == k then (k, v) :: rest else (k', v') :: envSet rest k v

/-- `delete o[k]`. -/
def envDel (e : Env) (k : String) : Env :=
  e.filter (fun p => ¬ (p.1 == k))

/-- `v === undefined` (strict). -/
def isUndef : JSONLike → Bool
  | .undef => true
  | _ => false

/-- `v === null` (strict). -/
def isNull : JSONLike → Bool
  | .null => true
  | _ => false

/-- `v == null` (loose): true for both `null` and `undefined`. -/
def looseNull : JSONLike → Bool
  | .null => true
  | .undef => true
  | _ => false

/-- `Array.isArray v`. -/
def isArray : JSONLike → Bool
  | .arr _ => true
  | _ => false

mutual
/-- Structural equality of `JSONLike` values.  Used to model the strict
equality `===` of the source; on primitives this is exactly `===`.  On arrays
and objects JavaScript `===` compares references, which a value-based
embedding cannot observe; the claims under study only compare primitives. -/
def beqJSON : JSONLike → JSONLike → Bool
  | .undef, .undef => true
  | .null, .null => true
  | .bool a, .bool b => a == b
  | .num a, .num b => a == b
  | .str a, .str b => a == b
  | .arr xs, .arr ys => beqJSONList xs ys
  | .obj xs, .obj ys => beqJSONObj xs ys
  | _, _ => false

/-- Elementwise equality of value lists. -/
def beqJSONList : List JSONLike → List JSONLike → Bool
  | [], [] => true
  | x :: xs, y :: ys => beqJSON x y && beqJSONList xs ys
  | _, _ => false

/-- Elementwise equality of object entry lists. -/
def beqJSONObj : List (String × JSONLike) → List (String × JSONLike) → Bool
  | [], [] => true
  | (k, x) :: xs, (l, y) :: ys => k == l && beqJSON x y && beqJSONObj xs ys
  | _, _ => false
end

/-- Parse of a decimal numeric literal: model of the JavaScript `Number(...)`
coercion restricted to the token shapes the ToolScript lexer produces
(optional sign, digits, at most one decimal point; `Number` additionally
accepts exponents, hex and `Infinity`, none of which a NUMBER/NAME/BARE token
that the relevant claims exercise can carry). Returns `none` for `NaN`. -/
def jsNumber (s : String) : Option ℚ :=
  let cs := s.toList
  let core : List Char → Option ℚ := fun cs =>
    let intPart := cs.takeWhile Char.isDigit
    let rest := cs.dropWhile Char.isDigit
    let intVal : ℚ := (intPart.foldl (fun a c => a * 10 + (c.toNat - '0'.toNat)) 0 : ℕ)
    match rest with
    | [] => if intPart.isEmpty then none else some intVal
    | '.' :: frac =>
        if frac.all Char.isDigit ∧ ¬ (intPart.isEmpty ∧ frac.isEmpty) then
          let fracVal : ℚ :=
            (frac.foldl (fun a c => a * 10 + (c.toNat - '0'.toNat)) 0 : ℕ)
          some (intVal + fracVal / ((10 : ℚ) ^ frac.length))
        else none
    | _ => none
  match cs with
  | '-' :: rest => (core rest).map (fun q => -q)
  | '+' :: rest => core rest
  | _ => core cs

/-- String rendering of a number for JS coercions.  Exact for integers; other
rationals are rendered as `num/den`, a corner (array-to-primitive coercion of
non-integer floats) no claim exercises. -/
def numToString (q : ℚ) : String :=
  if q.den = 1 then toString q.num else toString q.num ++ "/" ++ toString q.den

/-- JavaScript `String(v)` / `Array.prototype.toString`. -/
def jsToString : JSONLike → String
  | .undef => "undefined"
  | .null => "null"
  | .bool b => if b then "true" else "false"
  | .num q => numToString q
  | .str s => s
  | .arr xs => String.intercalate "," (xs.map (fun v =>
      match v with
      | .null => ""
      | .undef => ""
      | .bool b => if b then "true" else "false"
      | .num q => numToString q
      | .str s => s
      | .arr _ => ""
      | .obj _ => "[object Object]"))
  | .obj _ => "[object Object]"

/-- JavaScript numeric coercion `ToNumber` (none = NaN). -/
def jsToNum : JSONLike → Option ℚ
  | .undef => none
  | .null => some 0
  | .bool b => some (if b then 1 else 0)
  | .num q => some q
  | .str s => if s.isEmpty then some 0 else jsNumber s
  | .arr xs => let s := jsToString (.arr xs); if s.isEmpty then some 0 else jsNumber s
  | .obj _ => none

/-- JavaScript `l < r` (relational comparison of non-null operands: string
pairs compare lexicographically, otherwise both sides coerce to numbers, and
any NaN makes the comparison false). -/
def jsLess (l r : JSONLike) : Bool :=
  match l, r with
  | .str a, .str b => a < b
  | _, _ =>
      match jsToNum l, jsToNum r with
      | some x, some y => x < y
      | _, _ => false

/-- JavaScript `l <= r`. -/
def jsLessEq (l r : JSONLike) : Bool :=
  match l, r with
  | .str a, .str b => a ≤ b
  | _, _ =>
      match jsToNum l, jsToNum r with
      | some x, some y => x ≤ y
      | _, _ => false

/-! ## Abstract syntax (the parser's `Value`, `VarRef`, `Cond`, `Stmt`,
`PlanNode` types).  The parser's `VarRef` path is a `NAME` head followed by
`NUMBER` indices, so it is modelled as a head name plus numeric index list.
The optional `loc` metadata the source attaches to some nodes is omitted: no
claim concerns it. -/

/-- Comparison operator class (the `CMP` token's possible texts). -/
inductive CmpOp : Type where
  | eq | ne | lt | le | gt | ge
deriving DecidableEq, Repr

/-- Value expressions (`Value | VarRef` of the source). -/
inductive ValueE : Type where
  | number (q : ℚ) : ValueE
  | boolV (b : Bool) : ValueE
  | nullV : ValueE
  | strV (s : String) : ValueE
  | bare (s : String) : ValueE
  | arrV (items : List ValueE) : ValueE
  | mapV (entries : List (String × ValueE)) : ValueE
  | varRef (name : String) (idxs : List ℚ) : ValueE
deriving Repr

/-- Boolean conditions. -/
inductive Cond : Type where
  | notC (inner : Cond) : Cond
  | andC (left right : Cond) : Cond
  | orC (left right : Cond) : Cond
  | cmp (op : CmpOp) (left right : ValueE) : Cond
deriving Repr

mutual
/-- A `Script` (top level) or `Block` (braced) statement sequence. -/
inductive PlanNode : Type where
  | script (body : List Stmt) : PlanNode
  | block (body : List Stmt) : PlanNode

/-- Statements.  `call` carries the tool invocation fields inline
(name, ordered key/value argument list, optional capture variable). -/
inductive Stmt : Type where
  | letS (name : String) (expr : ValueE) : Stmt
  | call (name : String) (args : List (String × ValueE)) (capture : Option String) : Stmt
  | ifS (cond : Cond) (thenB : PlanNode) (elseB : Option PlanNode) : Stmt
  | forS (item : String) (iterable : ValueE) (body : PlanNode) : Stmt
  | ret (expr : ValueE) : Stmt
  | empty : Stmt
end

/-- Entries of the execution trace (`{kind, info}` of the source, with the
kind-specific `info` payload inlined per constructor). -/
inductive TraceEntry : Type where
  | letE (name : String) (value : JSONLike) : TraceEntry
  | callE (name : String) (args : Env) (capture : Option String) (result : JSONLike) : TraceEntry
  | ifE (cond : Cond) (value : Bool) : TraceEntry
  | forIter (item : String) (index : ℕ) (value : JSONLike) : TraceEntry
  | retE (value : JSONLike) : TraceEntry

/-! ## Expression resolution (`resolveValue`) and condition evaluation
(`evalCond`), pure in the current variable environment. -/

/-- The numeric-index read `cur[i]` of the `VarRef` walk.  Reading a property
of `null`/`undefined` throws a `TypeError` (message modelled after the
engine's); arrays/strings index ordinally, objects by the stringified key,
other primitives yield `undefined`. -/
def jsIndex (cur : JSONLike) (i : ℚ) : Except String JSONLike :=
  match cur with
  | .null => .error "Cannot read properties of null"
  | .undef => .error "Cannot read properties of undefined"
  | .arr xs =>
      if i.den = 1 ∧ 0 ≤ i.num then .ok ((xs.get? i.num.toNat).getD .undef)
      else .ok (.undef)
  | .obj es =>
      if i.den = 1 then .ok ((envLookup es (toString i.num)).getD .undef)
      else .ok (.undef)
  | .str s =>
      if i.den = 1 ∧ 0 ≤ i.num then
        .ok (((s.toList.get? i.num.toNat).map (fun c => JSONLike.str (String.mk [c]))).getD .undef)
      else .ok (.undef)
  | _ => .ok (.undef)

/-- The index-path loop of `resolveValue`'s `VarRef` case: `cur = cur[path[k]]`
for each step, with no null test between steps. -/
def walkPath : JSONLike → List ℚ → Except String JSONLike
  | cur, [] => .ok cur
  | cur, i :: rest => do walkPath (← jsIndex cur i) rest

mutual
/-- `resolveValue` of the interpreter: literals to themselves; `Bare` to the
bound variable of that name if present, else keyword, else number, else the
literal string; arrays/maps elementwise; `VarRef` by looking up the head
(resolving to `null` when the head is unbound or null) then walking the
index path. -/
def resolveValue (vars : Env) : ValueE → Except String JSONLike
  | .number q => .ok (.num q)
  | .boolV b => .ok (.bool b)
  | .nullV => .ok .null
  | .strV s => .ok (.str s)
  | .bare s =>
      if envHas vars s then .ok (envGet vars s)
      else if s = "true" then .ok (.bool true)
      else if s = "false" then .ok (.bool false)
      else if s = "null" then .ok .null
      else
        match jsNumber s with
        | some n => .ok (.num n)
        | none => .ok (.str s)
  | .arrV items => do .ok (.arr (← resolveList vars items))
  | .mapV entries => do .ok (.obj (← resolveEntries vars entries []))
  | .varRef name idxs =>
      let cur := envGet vars name
      if looseNull cur then .ok .null else walkPath cur idxs

/-- `v.items.map(resolveValue)`. -/
def resolveList (vars : Env) : List ValueE → Except String (List JSONLike)
  | [] => .ok []
  | v :: rest => do
      let jv ← resolveValue vars v
      let jrest ← resolveList vars rest
      .ok (jv :: jrest)

/-- `for (const e of v.entries) obj[e.key] = resolveValue(e.value)`:
sequential object assignment (duplicate keys overwrite in place). -/
def resolveEntries (vars : Env) : List (String × ValueE) → Env → Except String Env
  | [], acc => .ok acc
  | (k, v) :: rest, acc => do
      let jv ← resolveValue vars v
      resolveEntries vars rest (envSet acc k jv)
end

/-- The `switch (c.op)` block of `evalCond`, applied once both operands are
known non-null: the JavaScript operator on the resolved values. -/
def jsCmpOp (op : CmpOp) (lv rv : JSONLike) : Bool :=
  match op with
  | .eq => beqJSON lv rv
  | .ne => ! beqJSON lv rv
  | .lt => jsLess lv rv
  | .le => jsLessEq lv rv
  | .gt => jsLess rv lv
  | .ge => jsLessEq rv lv

/-- `evalCond` of the interpreter: `NOT`/short-circuit `AND`/`OR`; a `Cmp`
resolves both operands, returns `l === r` whenever either side is `null`
(whatever the operator — the source's early return ignores `c.op` here), and
otherwise applies the JavaScript operator. -/
def evalCond (vars : Env) : Cond → Except String Bool
  | .notC inner => do .ok (! (← evalCond vars inner))
  | .andC l r => do
      let lb ← evalCond vars l
      if lb then evalCond vars r else .ok false
  | .orC l r => do
      let lb ← evalCond vars l
      if lb then .ok true else evalCond vars r
  | .cmp op l r => do
      let lv ← resolveValue vars l
      let rv ← resolveValue vars r
      if isNull lv || isNull rv then .ok (beqJSON lv rv)
      else .ok (jsCmpOp op lv rv)

/-! ## The interpreter (`executeToolScript`). -/

/-- A capability: a callable that receives the resolved argument object and
either returns a value or throws. -/
abbrev Capability := JSONLike → Except String JSONLike

/-- The caller-supplied capability mapping (`caps[name]`, `undefined` when the
name is absent). -/
abbrev Capabilities := String → Option Capability

/-- `ExecutionOptions` of the source: `maxSteps?: number`, `deadlineMs?:
number`, `dryRun?: boolean`. -/
structure ExecutionOptions : Type where
  maxSteps : Option ℕ := none
  deadlineMs : Option ℤ := none
  dryRun : Bool := false

/-- `ExecutionResult` of the source.  `ret` models the `return` field (`undef`
when absent), `error` the optional `error` string. -/
structure ExecutionResult : Type where
  ok : Bool
  ret : JSONLike
  error : Option String
  vars : Env
  trace : List TraceEntry

/-- The mutable machine state threaded through `runBlock`: the shared variable
environment, the append-only trace, the step counter, and the index of the
next `Date.now()` read against the clock oracle. -/
structure ExecState : Type where
  vars : Env
  trace : List TraceEntry
  steps : ℕ
  tick : ℕ

/-- The fixed execution context: capabilities, effective step budget, the
precomputed absolute deadline (`none` models `Infinity`), the dry-run flag
and the wall-clock oracle. -/
structure Ctx : Type where
  caps : Capabilities
  maxSteps : ℕ
  deadline : Option ℤ
  dryRun : Bool
  clock : ℕ → ℤ

/-- One `Date.now()` read. -/
def readClock (ctx : Ctx) (st : ExecState) : ℤ × ExecState :=
  (ctx.clock st.tick, { st with tick := st.tick + 1 })

/-- `now > deadline` (false against `Infinity`). -/
def pastDeadline (deadline : Option ℤ) (now : ℤ) : Bool :=
  match deadline with
  | none => false
  | some d => now > d

/-- `checkLimits` of the source: `if (++steps > maxSteps) throw "Step limit
exceeded"; if (Date.now() > deadline) throw "Deadline exceeded"`. -/
def checkLimits (ctx : Ctx) (st : ExecState) : ExecState × Except String Unit :=
  let st := { st with steps := st.steps + 1 }
  if st.steps > ctx.maxSteps then (st, .error "Step limit exceeded")
  else
    let (now, st) := readClock ctx st
    if pastDeadline ctx.deadline now then (st, .error "Deadline exceeded")
    else (st, .ok ())

/-- The standalone `if (Date.now() > deadline) throw` check at the top of the
statement loop. -/
def checkDeadline (ctx : Ctx) (st : ExecState) : ExecState × Except String Unit :=
  let (now, st) := readClock ctx st
  if pastDeadline ctx.deadline now then (st, .error "Deadline exceeded")
  else (st, .ok ())

/-- Restores the loop variable after a `For`: re-bind the saved prior value,
or delete the binding if there was none. -/
def restoreBinding (vars : Env) (item : String) (hadPrior : Bool) (prior : JSONLike) : Env :=
  if hadPrior then envSet vars item prior else envDel vars item

/-- Every condition has positive size (used by the termination argument). -/
theorem one_le_sizeOf_cond (c : Cond) : 1 ≤ sizeOf c := by
  cases c <;> simp only [Cond.notC.sizeOf_spec, Cond.andC.sizeOf_spec,
    Cond.orC.sizeOf_spec, Cond.cmp.sizeOf_spec] <;> omega

/-- Every plan node has positive size (used by the termination argument). -/
theorem one_le_sizeOf_planNode (n : PlanNode) : 1 ≤ sizeOf n := by
  cases n <;> simp only [PlanNode.script.sizeOf_spec, PlanNode.block.sizeOf_spec] <;> omega

/-- Every value expression has positive size (used by the termination
argument). -/
theorem one_le_sizeOf_valueE (v : ValueE) : 1 ≤ sizeOf v := by
  cases v <;> simp only [ValueE.number.sizeOf_spec, ValueE.boolV.sizeOf_spec,
    ValueE.nullV.sizeOf_spec, ValueE.strV.sizeOf_spec, ValueE.bare.sizeOf_spec,
    ValueE.arrV.sizeOf_spec, ValueE.mapV.sizeOf_spec, ValueE.varRef.sizeOf_spec] <;> omega

/-- Size bound for the branch chosen by an `If` (used by the termination
argument: the implicit empty `else` block is smaller than the statement). -/
theorem ifBranch_sizeOf_lt (b : Bool) (c : Cond) (t : PlanNode) (e : Option PlanNode) :
    sizeOf (if b = true then t else e.getD (.block [])) < 1 + sizeOf c + sizeOf t + sizeOf e := by
  have h1 := one_le_sizeOf_cond c
  have h2 := one_le_sizeOf_planNode t
  rcases e with _ | e <;> split <;> simp [Option.getD] <;> omega

/-- Size bound for a `For` statement's body (used by the termination
argument). -/
theorem forBody_sizeOf_lt (i : String) (it : ValueE) (b : PlanNode) :
    sizeOf b + 1 < 1 + sizeOf i + sizeOf it + sizeOf b := by
  have := one_le_sizeOf_valueE it
  omega

/-- Collapses a block outcome to the JavaScript return value of `runBlock`
(`undefined` when no `Return` executed). -/
def collapse : ExecState × Except String (Option JSONLike) → ExecState × Except String JSONLike
  | (st, .error e) => (st, .error e)
  | (st, .ok none) => (st, .ok .undef)
  | (st, .ok (some v)) => (st, .ok v)

mutual
/-- `runBlock` of the source: a limit check on entry, then the statement loop
over the node's body; yields the propagated return value or `undefined`. -/
def runBlock (ctx : Ctx) (n : PlanNode) (st : ExecState) : ExecState × Except String JSONLike :=
  match checkLimits ctx st with
  | (st1, .error e) => (st1, .error e)
  | (st1, .ok ()) =>
      match n with
      | .script body => collapse (runStmts ctx body st1)
      | .block body => collapse (runStmts ctx body st1)
termination_by (sizeOf n, 0)

/-- The `for (const s of body)` loop of `runBlock`: per statement, a limit
check, the extra deadline check, then the statement dispatch; `some v` means
a `Return` (possibly of `undefined`) ended the block. -/
def runStmts (ctx : Ctx) (l : List Stmt) (st : ExecState) : ExecState × Except String (Option JSONLike) :=
  match l with
  | [] => (st, .ok none)
  | s :: rest =>
      match checkLimits ctx st with
      | (st1, .error e) => (st1, .error e)
      | (st1, .ok ()) =>
          match checkDeadline ctx st1 with
          | (st2, .error e) => (st2, .error e)
          | (st2, .ok ()) =>
              match runStmt ctx s st2 with
              | (st3, .error e) => (st3, .error e)
              | (st3, .ok (some v)) => (st3, .ok (some v))
              | (st3, .ok none) => runStmts ctx rest st3
termination_by (sizeOf l, 0)

/-- The statement dispatch (`switch (s.kind)` of the source). -/
def runStmt (ctx : Ctx) (s : Stmt) (st : ExecState) : ExecState × Except String (Option JSONLike) :=
  match s with
  | .empty => (st, .ok none)
  | .letS name expr =>
      match resolveValue st.vars expr with
      | .error e => (st, .error e)
      | .ok v =>
          ({ st with vars := envSet st.vars name v,
                     trace := st.trace ++ [.letE name v] }, .ok none)
  | .call nm args capture =>
      match ctx.caps nm with
      | none => (st, .error ("Unknown tool: " ++ nm))
      | some cap =>
          match resolveEntries st.vars args [] with
          | .error e => (st, .error e)
          | .ok argsObj =>
              match (if ctx.dryRun then .ok .null else cap (.obj argsObj)) with
              | .error e => (st, .error e)
              | .ok result =>
                  let vars :=
                    match capture with
                    | some c => envSet st.vars c result
                    | none => st.vars
                  ({ st with vars,
                             trace := st.trace ++ [.callE nm argsObj capture result] },
                   .ok none)
  | .ifS cond thenB elseB =>
      match evalCond st.vars cond with
      | .error e => (st, .error e)
      | .ok b =>
          let st1 := { st with trace := st.trace ++ [.ifE cond b] }
          match runBlock ctx (if b then thenB else elseB.getD (.block [])) st1 with
          | (st2, .error e) => (st2, .error e)
          | (st2, .ok r) =>
              if isUndef r then (st2, .ok none) else (st2, .ok (some r))
  | .forS item iterable body =>
      match resolveValue st.vars iterable with
      | .error e => (st, .error e)
      | .ok collection =>
          match collection with
          | .arr xs =>
              let hadPrior := envHas st.vars item
              let prior := envGet st.vars item
              match runFor ctx item body xs 0 st with
              | (st2, .error e) => (st2, .error e)
              | (st2, .ok r) =>
                  ({ st2 with vars := restoreBinding st2.vars item hadPrior prior },
                   .ok r)
          | _ => (st, .error "FOR expects iterable to resolve to an array")
  | .ret expr =>
      match resolveValue st.vars expr with
      | .error e => (st, .error e)
      | .ok val =>
          ({ st with trace := st.trace ++ [.retE val] }, .ok (some val))
termination_by (sizeOf s, 0)
decreasing_by
  all_goals
    first
      | decreasing_tactic
      | (simp_wf
         apply Prod.Lex.left
         first
           | apply ifBranch_sizeOf_lt
           | apply forBody_sizeOf_lt)

/-- The iteration loop of the `For` case: per element a limit check, the loop
variable binding, a `FOR_ITER` trace entry and the body block; a non-undefined
body result stops the loop (restoration happens in the caller, matching the
source, where a thrown limit error skips restoration entirely). -/
def runFor (ctx : Ctx) (item : String) (body : PlanNode) (vals : List JSONLike) (idx : ℕ)
    (st : ExecState) : ExecState × Except String (Option JSONLike) :=
  match vals with
  | [] => (st, .ok none)
  | v :: rest =>
      match checkLimits ctx st with
      | (st1, .error e) => (st1, .error e)
      | (st1, .ok ()) =>
          let st2 := { st1 with vars := envSet st1.vars item v,
                                trace := st1.trace ++ [.forIter item idx v] }
          match runBlock ctx body st2 with
          | (st3, .error e) => (st3, .error e)
          | (st3, .ok r) =>
              if isUndef r then runFor ctx item body rest (idx + 1) st3
              else (st3, .ok (some r))
termination_by (sizeOf body + 1, vals.length)
end

/-- Derives the absolute deadline from the options: `options.deadlineMs ?
start + options.deadlineMs : Infinity` (note `0` is falsy). -/
def mkDeadline (deadlineMs : Option ℤ) (start : ℤ) : Option ℤ :=
  match deadlineMs with
  | some d => if d = 0 then none else some (start + d)
  | none => none

/-- The execution context `executeToolScript` sets up: `maxSteps ?? 1000`,
the absolute deadline derived from `deadlineMs` and the start-of-call
`Date.now()` reading, the dry-run flag and the clock oracle. -/
def mkCtx (caps : Capabilities) (options : ExecutionOptions) (clock : ℕ → ℤ) : Ctx :=
  { caps := caps
    maxSteps := options.maxSteps.getD 1000
    deadline := mkDeadline options.deadlineMs (clock 0)
    dryRun := options.dryRun
    clock := clock }

/-- The initial machine state: empty environment and trace, step counter
zero, and the next clock read at index 1 (`Date.now()` read 0 fixed the start
time). -/
def initState : ExecState :=
  { vars := [], trace := [], steps := 0, tick := 1 }

/-- `executeToolScript`: builds the execution context, runs the plan from an
empty environment, and converts the outcome to an `ExecutionResult` — the
`try/catch` that reports every thrown condition as `ok=false` with the
accumulated state. -/
def executeToolScript (plan : PlanNode) (caps : Capabilities)
    (options : ExecutionOptions) (clock : ℕ → ℤ) : ExecutionResult :=
  match runBlock (mkCtx caps options clock) plan initState with
  | (st, .ok r) => { ok := true, ret := r, error := none, vars := st.vars, trace := st.trace }
  | (st, .error e) => { ok := false, ret := .undef, error := some e, vars := st.vars, trace := st.trace }

/-! ## The tokenizer (`tokenize`). -/

/-- Token types (`TokType` of the source).  The constructors `FOR` and `IN`
appear because the parser dispatches on them; note that the tokenizer's
keyword table below never produces them — the source's `TokType` union and
`KEYWORDS` record lack `FOR`/`IN` entries even though the parser matches
those types. -/
inductive TokType : Type where
  | LET | CALL | IF | ELSE | FOR | IN | RETURN
  | LPAREN | RPAREN | LBRACK | RBRACK | LBRACE | RBRACE
  | COLON | ARROW | EQ | COMMA
  | NAME | NUMBER | TRUE | FALSE | NULL
  | DQString | SQString | BARE | NEWLINE | DOLLAR
  | AND | OR | NOT | CMP | EOF
deriving DecidableEq, Repr

/-- The enum name of a token type, as used in error messages. -/
def tokTypeName : TokType → String
  | .LET => "LET" | .CALL => "CALL" | .IF => "IF" | .ELSE => "ELSE"
  | .FOR => "FOR" | .IN => "IN" | .RETURN => "RETURN"
  | .LPAREN => "LPAREN" | .RPAREN => "RPAREN" | .LBRACK => "LBRACK"
  | .RBRACK => "RBRACK" | .LBRACE => "LBRACE" | .RBRACE => "RBRACE"
  | .COLON => "COLON" | .ARROW => "ARROW" | .EQ => "EQ" | .COMMA => "COMMA"
  | .NAME => "NAME" | .NUMBER => "NUMBER" | .TRUE => "TRUE" | .FALSE => "FALSE"
  | .NULL => "NULL" | .DQString => "DQString" | .SQString => "SQString"
  | .BARE => "BARE" | .NEWLINE => "NEWLINE" | .DOLLAR => "DOLLAR"
  | .AND => "AND" | .OR => "OR" | .NOT => "NOT" | .CMP => "CMP" | .EOF => "EOF"

/-- A token with its source position. -/
structure Token : Type where
  type : TokType
  text : String
  line : ℕ
  col : ℕ
deriving DecidableEq, Repr

/-- The `KEYWORDS` table of the tokenizer.  Faithful to the source: it
contains `LET CALL IF ELSE RETURN AND OR NOT true false null` — and no
`FOR`/`IN` entries. -/
def keywordType (s : String) : Option TokType :=
  if s = "LET" then some .LET
  else if s = "CALL" then some .CALL
  else if s = "IF" then some .IF
  else if s = "ELSE" then some .ELSE
  else if s = "RETURN" then some .RETURN
  else if s = "AND" then some .AND
  else if s = "OR" then some .OR
  else if s = "NOT" then some .NOT
  else if s = "true" then some .TRUE
  else if s = "false" then some .FALSE
  else if s = "null" then some .NULL
  else none

/-- Horizontal whitespace (`isWS` of the source: space, tab, carriage
return). -/
def isWS (c : Char) : Bool :=
  c = ' ' || c = '\t' || c = '\r'

/-- Identifier start characters (`/[A-Za-z_]/`). -/
def isNameStart (c : Char) : Bool :=
  (('A' ≤ c ∧ c ≤ 'Z') ∨ ('a' ≤ c ∧ c ≤ 'z') : Prop) ∨ c = '_'

/-- Identifier continuation characters (`/[A-Za-z0-9_]/`). -/
def isNameChar (c : Char) : Bool :=
  isNameStart c || c.isDigit

/-- Continuation characters of a NUMBER token (`/[0-9_.]/`). -/
def isNumCont (c : Char) : Bool :=
  c.isDigit || c = '_' || c = '.'

/-- The bare-word character class `/[^\s\[\]\(\)\{\},:=><!"'\x27$]/`:
anything except whitespace, brackets, braces, parens, comma, colon,
assignment, comparison starters, quotes and the variable sigil. -/
def isBareChar (c : Char) : Bool :=
  !(c = ' ' || c = '\t' || c = '\r' || c = '\n' || c = '\x0c' || c = '\x0b' ||
    c = '[' || c = ']' || c = '(' || c = ')' || c = '{' || c = '}' ||
    c = ',' || c = ':' || c = '=' || c = '>' || c = '<' || c = '!' ||
    c = '\"' || c = '\x27' || c = '$')

/-- Advances a line/column pair across a list of consumed characters
(the `adv` helper of the tokenizer). -/
def advancePos : List Char → ℕ × ℕ → ℕ × ℕ
  | [], pos => pos
  | c :: rest, (line, col) =>
      advancePos rest (if c = '\n' then (line + 1, 1) else (line, col + 1))

/-- Scan of a double-quoted string body (after the opening quote): processes
`\n`/`\t` escapes, passes other escaped characters through, stops at an
unescaped quote.  Returns the decoded text, the characters consumed (escape
pairs and the closing quote included) and the remaining input.  An
unterminated string simply ends at end of input, as in the source; a dangling
backslash at end of input is modelled as consuming just the backslash (the
JavaScript source would append the text "undefined" — unreachable for the
inputs under study). -/
def scanDQ : List Char → String → String × List Char × List Char
  | [], out => (out, [], [])
  | '\\' :: [], out => (out, ['\\'], [])
  | '\\' :: n :: rest, out =>
      let decoded := if n = 'n' then '\n' else if n = 't' then '\t' else n
      let (o, consumed, rem) := scanDQ rest (out.push decoded)
      (o, '\\' :: n :: consumed, rem)
  | '\"' :: rest, out => (out, ['\"'], rest)
  | c :: rest, out =>
      let (o, consumed, rem) := scanDQ rest (out.push c)
      (o, c :: consumed, rem)

/-- Scan of a single-quoted string body: `\\`, `\x27` and an escaped literal
newline decode; other escaped characters pass through; stops at an unescaped
single quote. -/
def scanSQ : List Char → String → String × List Char × List Char
  | [], out => (out, [], [])
  | '\\' :: [], out => (out, ['\\'], [])
  | '\\' :: n :: rest, out =>
      let decoded := if n = '\n' then '\n' else if n = '\x27' then '\x27'
        else if n = '\\' then '\\' else n
      let (o, consumed, rem) := scanSQ rest (out.push decoded)
      (o, '\\' :: n :: consumed, rem)
  | '\x27' :: rest, out => (out, ['\x27'], rest)
  | c :: rest, out =>
      let (o, consumed, rem) := scanSQ rest (out.push c)
      (o, c :: consumed, rem)

/-- The tokenizer's main loop, with explicit fuel (each loop iteration of
the source consumes at least one character, so any fuel larger than the input
length gives the source's behaviour; the fuel-exhausted branch is unreachable
on such fuel).  The character dispatch follows the source's priority order:
whitespace, comments, newline, single-character punctuation, two-character
comparison operators then single `<`/`>`, arrow, assignment, sigil, numeric
literals, the two string forms, identifiers/keywords, bare words, and the
fatal lexical error. -/
def tokenizeLoop : ℕ → List Char → ℕ → ℕ → List Token → Except String (List Token)
  | 0, _, _, _, _ => .error "tokenizer fuel exhausted"
  | _ + 1, [], line, col, acc => .ok (acc ++ [⟨.EOF, "", line, col⟩])
  | fuel + 1, c :: rest, line, col, acc =>
      if isWS c then
        tokenizeLoop fuel rest line (col + 1) acc
      else if c = '/' ∧ rest.head? = some '/' then
        let comment := rest.takeWhile (fun ch => ¬ ch = '\n')
        let rem := rest.dropWhile (fun ch => ¬ ch = '\n')
        let (l2, c2) := advancePos (c :: comment) (line, col)
        tokenizeLoop fuel rem l2 c2 acc
      else if c = '\n' then
        tokenizeLoop fuel rest (line + 1) 1 (acc ++ [⟨.NEWLINE, "\n", line, col⟩])
      else if c = '(' then
        tokenizeLoop fuel rest line (col + 1) (acc ++ [⟨.LPAREN, "(", line, col⟩])
      else if c = ')' then
        tokenizeLoop fuel rest line (col + 1) (acc ++ [⟨.RPAREN, ")", line, col⟩])
      else if c = '[' then
        tokenizeLoop fuel rest line (col + 1) (acc ++ [⟨.LBRACK, "[", line, col⟩])
      else if c = ']' then
        tokenizeLoop fuel rest line (col + 1) (acc ++ [⟨.RBRACK, "]", line, col⟩])
      else if c = '\x7b' then
        tokenizeLoop fuel rest line (col + 1) (acc ++ [⟨.LBRACE, "\x7b", line, col⟩])
      else if c = '\x7d' then
        tokenizeLoop fuel rest line (col + 1) (acc ++ [⟨.RBRACE, "\x7d", line, col⟩])
      else if c = ':' then
        tokenizeLoop fuel rest line (col + 1) (acc ++ [⟨.COLON, ":", line, col⟩])
      else if c = ',' then
        tokenizeLoop fuel rest line (col + 1) (acc ++ [⟨.COMMA, ",", line, col⟩])
      else if (c = '!' || c = '<' || c = '>' || c = '=') && rest.head? = some '=' then
        tokenizeLoop fuel rest.tail line (col + 2)
          (acc ++ [⟨.CMP, String.mk [c, '='], line, col⟩])
      else if c = '<' || c = '>' then
        tokenizeLoop fuel rest line (col + 1) (acc ++ [⟨.CMP, String.mk [c], line, col⟩])
      else if c = '-' && rest.head? = some '>' then
        tokenizeLoop fuel rest.tail line (col + 2) (acc ++ [⟨.ARROW, "->", line, col⟩])
      else if c = '=' then
        tokenizeLoop fuel rest line (col + 1) (acc ++ [⟨.EQ, "=", line, col⟩])
      else if c = '$' then
        tokenizeLoop fuel rest line (col + 1) (acc ++ [⟨.DOLLAR, "$", line, col⟩])
      else if c.isDigit || (c = '-' && (rest.head?.map Char.isDigit).getD false) then
        let body := rest.takeWhile isNumCont
        let rem := rest.dropWhile isNumCont
        let text := String.mk ((c :: body).filter (fun ch => ¬ ch = '_'))
        tokenizeLoop fuel rem line (col + 1 + body.length)
          (acc ++ [⟨.NUMBER, text, line, col⟩])
      else if c = '\"' then
        let (out, consumed, rem) := scanDQ rest ""
        let (l2, c2) := advancePos (c :: consumed) (line, col)
        tokenizeLoop fuel rem l2 c2 (acc ++ [⟨.DQString, out, line, col⟩])
      else if c = '\x27' then
        let (out, consumed, rem) := scanSQ rest ""
        let (l2, c2) := advancePos (c :: consumed) (line, col)
        tokenizeLoop fuel rem l2 c2 (acc ++ [⟨.SQString, out, line, col⟩])
      else if isNameStart c then
        let body := rest.takeWhile isNameChar
        let rem := rest.dropWhile isNameChar
        let text := String.mk (c :: body)
        let ty := (keywordType text).getD .NAME
        tokenizeLoop fuel rem line (col + 1 + body.length) (acc ++ [⟨ty, text, line, col⟩])
      else if isBareChar c then
        let body := rest.takeWhile isBareChar
        let rem := rest.dropWhile isBareChar
        tokenizeLoop fuel rem line (col + 1 + body.length)
          (acc ++ [⟨.BARE, String.mk (c :: body), line, col⟩])
      else
        .error ("Unexpected character " ++ String.mk [c] ++ " at " ++
          toString line ++ ":" ++ toString col)

/-- `tokenize` of the source: single left-to-right pass, ending in an EOF
token, or a fatal lexical error. -/
def tokenize (input : String) : Except String (List Token) :=
  tokenizeLoop (input.length + 1) input.toList 1 1 []

/-! ## The parser (`parseToolScript`).

The recursive-descent parser is modelled with the token stream as an explicit
list and a fuel parameter standing in for the source's terminating token
consumption (every production consumes at least one token; an unterminated
block or bracket makes the source loop forever, which the fuel turns into an
explicit error — unreachable in the claims below). -/

/-- A parsed tool invocation (`FunctionCall` of the source; `loc` omitted). -/
structure FunctionCall : Type where
  name : String
  args : List (String × ValueE)
  capture : Option String
deriving Repr

/-- The result of `parseToolScript`. -/
structure ParseResult : Type where
  requiredCapabilities : List String
  invocations : List FunctionCall
  plan : PlanNode

/-- Record-style assignment `args[key] = v` on an ordered association list
(overwrite in place, else append) for parsed `CALL` arguments. -/
def assocSet : List (String × ValueE) → String → ValueE → List (String × ValueE)
  | [], k, v => [(k, v)]
  | (k', v') :: rest, k, v =>
      if k' == k then (k, v) :: rest else (k', v') :: assocSet rest k v

/-- `this.peek()`: the sequence is EOF-terminated, so an exhausted list can
only be peeked past the end in unreachable states; it then reads as EOF. -/
def peekTok : List Token → Token
  | [] => ⟨.EOF, "", 0, 0⟩
  | t :: _ => t

/-- `this.match(type)`: consume the expected token type or fail with the
source's syntax error message. -/
def matchTok (ty : TokType) (toks : List Token) : Except String (Token × List Token) :=
  let t := peekTok toks
  if t.type = ty then .ok (t, toks.tail)
  else .error ("Expected " ++ tokTypeName ty ++ " at " ++ toString t.line ++ ":" ++
    toString t.col ++ ", got " ++ tokTypeName t.type)

/-- `skipNewlines`. -/
def skipNewlines : List Token → List Token
  | t :: rest => if t.type = .NEWLINE then skipNewlines rest else t :: rest
  | [] => []

/-- `expectNL` of the source: it skips newlines, returns early at EOF — and
otherwise falls through returning normally as well, so it never rejects
anything.  It is therefore exactly `skipNewlines`. -/
def expectNL (toks : List Token) : List Token :=
  let toks := skipNewlines toks
  if (peekTok toks).type = .EOF then toks else toks

/-- The `CmpOp` for a CMP token's text (the source casts the text; CMP tokens
only ever carry one of the six operator texts, the catch-all is unreachable). -/
def cmpOpOfText (s : String) : CmpOp :=
  if s = "==" then .eq
  else if s = "!=" then .ne
  else if s = "<" then .lt
  else if s = "<=" then .le
  else if s = ">" then .gt
  else .ge

mutual
/-- The statement loop of `parseScript`: statements until EOF. -/
def parseStmtList : ℕ → List Token → Except String (List Stmt × List Token)
  | 0, _ => .error "parser fuel exhausted"
  | fuel + 1, toks =>
      if (peekTok toks).type = .EOF then .ok ([], toks)
      else do
        let (s?, toks) ← parseStmt fuel toks
        let (rest, toks) ← parseStmtList fuel toks
        match s? with
        | some s => .ok (s :: rest, toks)
        | none => .ok (rest, toks)

/-- `parseStmt`: skip newlines then dispatch on the lookahead token.  The
NEWLINE case of the source's switch is unreachable (the preceding
`skipNewlines` consumed them all) but is kept faithfully. -/
def parseStmt : ℕ → List Token → Except String (Option Stmt × List Token)
  | 0, _ => .error "parser fuel exhausted"
  | fuel + 1, toks =>
      let toks := skipNewlines toks
      let t := peekTok toks
      match t.type with
      | .LET => do
          let (s, toks) ← parseLet fuel toks
          .ok (some s, toks)
      | .CALL => do
          let (s, toks) ← parseCall fuel toks
          .ok (some s, toks)
      | .IF => do
          let (s, toks) ← parseIf fuel toks
          .ok (some s, toks)
      | .FOR => do
          let (s, toks) ← parseFor fuel toks
          .ok (some s, toks)
      | .RETURN => do
          let (s, toks) ← parseReturn fuel toks
          .ok (some s, toks)
      | .NEWLINE => .ok (some .empty, toks.tail)
      | .EOF => .ok (none, toks)
      | _ =>
          .error ("Unexpected token " ++ tokTypeName t.type ++ " at " ++
            toString t.line ++ ":" ++ toString t.col)

/-- `parseLet`: `LET name = expr` then the (vacuous) terminator check. -/
def parseLet : ℕ → List Token → Except String (Stmt × List Token)
  | 0, _ => .error "parser fuel exhausted"
  | fuel + 1, toks => do
      let (_, toks) ← matchTok .LET toks
      let (nameTok, toks) ← matchTok .NAME toks
      let (_, toks) ← matchTok .EQ toks
      let (expr, toks) ← parseValueOrVar fuel toks
      .ok (.letS nameTok.text expr, expectNL toks)

/-- `parseCall`: `CALL tool (key=value)* [-> capture]`. -/
def parseCall : ℕ → List Token → Except String (Stmt × List Token)
  | 0, _ => .error "parser fuel exhausted"
  | fuel + 1, toks => do
      let (_, toks) ← matchTok .CALL toks
      let toolTok := peekTok toks
      if toolTok.type = .NAME ∨ toolTok.type = .BARE then do
        let toks := toks.tail
        let (args, toks) ← parseCallArgs fuel toks []
        let capTry := peekTok toks
        if capTry.type = .ARROW then
          let toks := toks.tail
          let capTok := peekTok toks
          if capTok.type = .NAME ∨ capTok.type = .BARE then
            .ok (.call toolTok.text args (some capTok.text), expectNL toks.tail)
          else
            .error ("Expected name after -> at " ++ toString capTok.line ++ ":" ++
              toString capTok.col)
        else
          .ok (.call toolTok.text args none, expectNL toks)
      else
        .error ("Expected tool name at " ++ toString toolTok.line ++ ":" ++
          toString toolTok.col)

/-- The `key=value` argument loop of `parseCall` (keys must be NAME tokens;
assignment into the argument record). -/
def parseCallArgs : ℕ → List Token → List (String × ValueE) →
    Except String (List (String × ValueE) × List Token)
  | 0, _, _ => .error "parser fuel exhausted"
  | fuel + 1, toks, acc =>
      let t := peekTok toks
      if t.type = .NAME then do
        let toks := toks.tail
        let (_, toks) ← matchTok .EQ toks
        let (v, toks) ← parseValueOrVar fuel toks
        parseCallArgs fuel toks (assocSet acc t.text v)
      else
        .ok (acc, toks)

/-- `parseIf`: `IF cond : { ... }` with optional `ELSE : { ... }`. -/
def parseIf : ℕ → List Token → Except String (Stmt × List Token)
  | 0, _ => .error "parser fuel exhausted"
  | fuel + 1, toks => do
      let (_, toks) ← matchTok .IF toks
      let (cond, toks) ← parseCond fuel toks
      let (thenB, toks) ← parseBlockAfterColon fuel toks
      if (peekTok toks).type = .ELSE then do
        let (elseB, toks) ← parseBlockAfterColon fuel toks.tail
        .ok (.ifS cond thenB (some elseB), toks)
      else
        .ok (.ifS cond thenB none, toks)

/-- `parseFor`: `FOR name IN iterable : { ... }`.  Dispatches on the `FOR`
and `IN` token types, which the tokenizer never emits. -/
def parseFor : ℕ → List Token → Except String (Stmt × List Token)
  | 0, _ => .error "parser fuel exhausted"
  | fuel + 1, toks => do
      let (_, toks) ← matchTok .FOR toks
      let (itemTok, toks) ← matchTok .NAME toks
      let (_, toks) ← matchTok .IN toks
      let (iterable, toks) ← parseValueOrVar fuel toks
      let (body, toks) ← parseBlockAfterColon fuel toks
      .ok (.forS itemTok.text iterable body, toks)

/-- `parseReturn`: `RETURN expr` then the (vacuous) terminator check. -/
def parseReturn : ℕ → List Token → Except String (Stmt × List Token)
  | 0, _ => .error "parser fuel exhausted"
  | fuel + 1, toks => do
      let (_, toks) ← matchTok .RETURN toks
      let (expr, toks) ← parseValueOrVar fuel toks
      .ok (.ret expr, expectNL toks)

/-- `parseBlock`: `{ stmts }` with optional trailing newlines. -/
def parseBlock : ℕ → List Token → Except String (PlanNode × List Token)
  | 0, _ => .error "parser fuel exhausted"
  | fuel + 1, toks => do
      let (_, toks) ← matchTok .LBRACE toks
      let (body, toks) ← parseBlockBody fuel toks
      let (_, toks) ← matchTok .RBRACE toks
      let toks := if (peekTok toks).type = .NEWLINE then skipNewlines toks else toks
      .ok (.block body, toks)

/-- The statement loop of `parseBlock` (until a closing brace). -/
def parseBlockBody : ℕ → List Token → Except String (List Stmt × List Token)
  | 0, _ => .error "parser fuel exhausted"
  | fuel + 1, toks =>
      if (peekTok toks).type = .RBRACE then .ok ([], toks)
      else do
        let (s?, toks) ← parseStmt fuel toks
        let (rest, toks) ← parseBlockBody fuel toks
        match s? with
        | some s => .ok (s :: rest, toks)
        | none => .ok (rest, toks)

/-- `parseBlockAfterColon`: one or more colons (blank lines tolerated between
them) then a block. -/
def parseBlockAfterColon : ℕ → List Token → Except String (PlanNode × List Token)
  | 0, _ => .error "parser fuel exhausted"
  | fuel + 1, toks => do
      let (_, toks) ← matchTok .COLON toks
      let toks := skipNewlines toks
      let toks ← skipExtraColons fuel toks
      parseBlock fuel toks

/-- The `while (peek is COLON)` loop of `parseBlockAfterColon`. -/
def skipExtraColons : ℕ → List Token → Except String (List Token)
  | 0, _ => .error "parser fuel exhausted"
  | fuel + 1, toks =>
      if (peekTok toks).type = .COLON then
        skipExtraColons fuel (skipNewlines toks.tail)
      else .ok toks

/-- `parseValueOrVar`: a variable reference after a `$`, else a value. -/
def parseValueOrVar : ℕ → List Token → Except String (ValueE × List Token)
  | 0, _ => .error "parser fuel exhausted"
  | fuel + 1, toks =>
      if (peekTok toks).type = .DOLLAR then parseVarRef fuel toks
      else parseValue fuel toks

/-- `parseValue`: literals, bare words, arrays and maps.  A NUMBER token's
text converts with `Number(...)`; `jsNumber` models that conversion, with `0`
standing in for the unrepresentable NaN of a malformed token such as
`1.2.3` (no claim exercises one). -/
def parseValue : ℕ → List Token → Except String (ValueE × List Token)
  | 0, _ => .error "parser fuel exhausted"
  | fuel + 1, toks =>
      let t := peekTok toks
      match t.type with
      | .NUMBER => .ok (.number ((jsNumber t.text).getD 0), toks.tail)
      | .TRUE => .ok (.boolV true, toks.tail)
      | .FALSE => .ok (.boolV false, toks.tail)
      | .NULL => .ok (.nullV, toks.tail)
      | .DQString => .ok (.strV t.text, toks.tail)
      | .SQString => .ok (.strV t.text, toks.tail)
      | .NAME => .ok (.bare t.text, toks.tail)
      | .BARE => .ok (.bare t.text, toks.tail)
      | .LBRACK => parseArray fuel toks
      | .LPAREN => parseMap fuel toks
      | _ =>
          .error ("Expected value at " ++ toString t.line ++ ":" ++
            toString t.col ++ ", got " ++ tokTypeName t.type)

/-- `parseArray`: `[ v, v ... ]` with optional comma separators. -/
def parseArray : ℕ → List Token → Except String (ValueE × List Token)
  | 0, _ => .error "parser fuel exhausted"
  | fuel + 1, toks => do
      let (_, toks) ← matchTok .LBRACK toks
      let (items, toks) ← parseArrayItems fuel toks
      let (_, toks) ← matchTok .RBRACK toks
      .ok (.arrV items, toks)

/-- The item loop of `parseArray`. -/
def parseArrayItems : ℕ → List Token → Except String (List ValueE × List Token)
  | 0, _ => .error "parser fuel exhausted"
  | fuel + 1, toks =>
      if (peekTok toks).type = .RBRACK then .ok ([], toks)
      else do
        let (v, toks) ← parseValueOrVar fuel toks
        let toks := if (peekTok toks).type = .COMMA then toks.tail else toks
        let (rest, toks) ← parseArrayItems fuel toks
        .ok (v :: rest, toks)

/-- `parseMap`: `( key=v key=v ... )`; entries are kept in parse order,
duplicates included (resolution overwrites later). -/
def parseMap : ℕ → List Token → Except String (ValueE × List Token)
  | 0, _ => .error "parser fuel exhausted"
  | fuel + 1, toks => do
      let (_, toks) ← matchTok .LPAREN toks
      let (entries, toks) ← parseMapEntries fuel toks
      let (_, toks) ← matchTok .RPAREN toks
      .ok (.mapV entries, toks)

/-- The entry loop of `parseMap`. -/
def parseMapEntries : ℕ → List Token →
    Except String (List (String × ValueE) × List Token)
  | 0, _ => .error "parser fuel exhausted"
  | fuel + 1, toks =>
      if (peekTok toks).type = .RPAREN then .ok ([], toks)
      else do
        let (keyTok, toks) ← matchTok .NAME toks
        let (_, toks) ← matchTok .EQ toks
        let (v, toks) ← parseValueOrVar fuel toks
        let (rest, toks) ← parseMapEntries fuel toks
        .ok ((keyTok.text, v) :: rest, toks)

/-- `parseVarRef`: `$name` with `[NUMBER]` index suffixes. -/
def parseVarRef : ℕ → List Token → Except String (ValueE × List Token)
  | 0, _ => .error "parser fuel exhausted"
  | fuel + 1, toks => do
      let (_, toks) ← matchTok .DOLLAR toks
      let (nameTok, toks) ← matchTok .NAME toks
      let (idxs, toks) ← parseVarRefIdxs fuel toks
      .ok (.varRef nameTok.text idxs, toks)

/-- The `[NUMBER]` suffix loop of `parseVarRef`. -/
def parseVarRefIdxs : ℕ → List Token → Except String (List ℚ × List Token)
  | 0, _ => .error "parser fuel exhausted"
  | fuel + 1, toks =>
      if (peekTok toks).type = .LBRACK then do
        let toks := toks.tail
        let (numTok, toks) ← matchTok .NUMBER toks
        let (_, toks) ← matchTok .RBRACK toks
        let (rest, toks) ← parseVarRefIdxs fuel toks
        .ok ((jsNumber numTok.text).getD 0 :: rest, toks)
      else .ok ([], toks)

/-- `parseCond` = `parseOr`. -/
def parseCond : ℕ → List Token → Except String (Cond × List Token)
  | 0, _ => .error "parser fuel exhausted"
  | fuel + 1, toks => parseOr fuel toks

/-- `parseOr`: left-associative OR chain over AND terms. -/
def parseOr : ℕ → List Token → Except String (Cond × List Token)
  | 0, _ => .error "parser fuel exhausted"
  | fuel + 1, toks => do
      let (left, toks) ← parseAnd fuel toks
      parseOrRest fuel left toks

/-- The `while (peek is OR)` loop of `parseOr`. -/
def parseOrRest : ℕ → Cond → List Token → Except String (Cond × List Token)
  | 0, _, _ => .error "parser fuel exhausted"
  | fuel + 1, left, toks =>
      if (peekTok toks).type = .OR then do
        let (right, toks) ← parseAnd fuel toks.tail
        parseOrRest fuel (.orC left right) toks
      else .ok (left, toks)

/-- `parseAnd`: left-associative AND chain over NOT terms. -/
def parseAnd : ℕ → List Token → Except String (Cond × List Token)
  | 0, _ => .error "parser fuel exhausted"
  | fuel + 1, toks => do
      let (left, toks) ← parseNotC fuel toks
      parseAndRest fuel left toks

/-- The `while (peek is AND)` loop of `parseAnd`. -/
def parseAndRest : ℕ → Cond → List Token → Except String (Cond × List Token)
  | 0, _, _ => .error "parser fuel exhausted"
  | fuel + 1, left, toks =>
      if (peekTok toks).type = .AND then do
        let (right, toks) ← parseNotC fuel toks.tail
        parseAndRest fuel (.andC left right) toks
      else .ok (left, toks)

/-- `parseNot` of the source: `NOT` prefixes, a parenthesized condition, or a
comparison. -/
def parseNotC : ℕ → List Token → Except String (Cond × List Token)
  | 0, _ => .error "parser fuel exhausted"
  | fuel + 1, toks =>
      if (peekTok toks).type = .NOT then do
        let (inner, toks) ← parseNotC fuel toks.tail
        .ok (.notC inner, toks)
      else if (peekTok toks).type = .LPAREN then do
        let (c, toks) ← parseCond fuel toks.tail
        let (_, toks) ← matchTok .RPAREN toks
        .ok (c, toks)
      else parseCmp fuel toks

/-- `parseCmp`: `value CMP value`. -/
def parseCmp : ℕ → List Token → Except String (Cond × List Token)
  | 0, _ => .error "parser fuel exhausted"
  | fuel + 1, toks => do
      let (left, toks) ← parseValueOrVar fuel toks
      let (opTok, toks) ← matchTok .CMP toks
      let (right, toks) ← parseValueOrVar fuel toks
      .ok (.cmp (cmpOpOfText opTok.text) left right, toks)
end

mutual
/-- The recursive `collect` walk of `parseScript`: every `Call` node in
document order, descending into both `If` branches and `For` bodies. -/
def collectPlan : PlanNode → List FunctionCall
  | .script body => collectStmts body
  | .block body => collectStmts body

/-- Collects invocations from a statement list. -/
def collectStmts : List Stmt → List FunctionCall
  | [] => []
  | s :: rest => collectStmt s ++ collectStmts rest

/-- Collects invocations from one statement. -/
def collectStmt : Stmt → List FunctionCall
  | .call nm args capture => [⟨nm, args, capture⟩]
  | .ifS _ thenB elseB =>
      collectPlan thenB ++ (match elseB with
        | some e => collectPlan e
        | none => [])
  | .forS _ _ body => collectPlan body
  | _ => []
end

/-- First-occurrence deduplication (`Array.from(new Set(...))`, which keeps
insertion order). -/
def dedupFirst (seen : List String) : List String → List String
  | [] => []
  | x :: rest =>
      if seen.contains x then dedupFirst seen rest
      else x :: dedupFirst (x :: seen) rest

/-- `parseToolScript`: tokenize, parse the script, then derive the invocation
list and the deduplicated required capability names. -/
def parseToolScript (script : String) : Except String ParseResult := do
  let toks ← tokenize script
  let (body, _) ← parseStmtList (50 * (toks.length + 1)) toks
  let plan : PlanNode := .script body
  let invocations := collectPlan plan
  .ok { requiredCapabilities := dedupFirst [] (invocations.map (·.name))
        invocations := invocations
        plan := plan }

/-! ## Basic lemmas about the environment operations. -/

/-- Binding by `envSet` makes the key look up to the new value. -/
theorem envLookup_envSet_self (e : Env) (k : String) (v : JSONLike) :
    envLookup (envSet e k v) k = some v := by
  induction e with
  | nil => simp [envSet, envLookup]
  | cons p rest ih =>
      obtain ⟨k', v'⟩ := p
      by_cases h : k' = k
      · simp [envSet, envLookup, h]
      · simpa [envSet, envLookup, h] using ih

/-- Deleting a key makes it look up to nothing. -/
theorem envLookup_envDel_self (e : Env) (k : String) :
    envLookup (envDel e k) k = none := by
  induction e with
  | nil => simp [envDel, envLookup]
  | cons p rest ih =>
      obtain ⟨k', v'⟩ := p
      by_cases h : k' = k <;> simp [envDel, envLookup, h] at ih ⊢

/-- Restoring a loop variable from the saved `hadPrior`/`prior` pair brings
its binding back to exactly what it was, no matter what the loop body did to
the environment. -/
theorem envLookup_restoreBinding (vars' vars : Env) (item : String) :
    envLookup (restoreBinding vars' item (envHas vars item) (envGet vars item)) item =
      envLookup vars item := by
  unfold restoreBinding envHas envGet
  cases h : envLookup vars item with
  | none => simp [h, envLookup_envDel_self]
  | some v => simp [h, envLookup_envSet_self]

/-- Bind on a successful `Except` computation. -/
theorem exceptBind_ok {α β : Type} (a : α) (f : α → Except String β) :
    (Except.ok a >>= f) = f a := rfl

/-- Bind on a failed `Except` computation. -/
theorem exceptBind_error {α β : Type} (e : String) (f : α → Except String β) :
    ((Except.error e : Except String α) >>= f) = .error e := rfl

/-- When either side is `null`, strict equality holds exactly when both sides
are `null`. -/
theorem beqJSON_of_null (lv rv : JSONLike) (h : (isNull lv || isNull rv) = true) :
    beqJSON lv rv = (isNull lv && isNull rv) := by
  cases lv <;> cases rv <;> simp_all [beqJSON, isNull]

/-! ## Claim C1. -/

/-- C1: the claim states that the lexer classifies `FOR` and `IN` as reserved
keyword tokens and that a `FOR ... IN ... : { ... }` statement parses into a
`For` node.  The tokenizer's keyword table has no `FOR`/`IN` entries, so both
words lex as generic `NAME` tokens and the parse of the repository's own
`FOR`-loop test script fails with a syntax error instead — the code
contradicts the parser (which dispatches on `FOR`), its own test suite and
the spec, a code bug. -/
theorem for_keywords_missing_from_lexer :
    (tokenize "FOR row IN $rows: \x7b\n\x7d\n").map (fun ts => (peekTok ts).type) =
      .ok .NAME ∧
    parseToolScript
        "CALL fetch -> rows\nFOR row IN $rows: \x7b\n  CALL handle value=$row -> last\n\x7d\nRETURN $last\n" =
      .error "Unexpected token NAME at 2:1" :=
  ⟨rfl, rfl⟩

/-! ## Claim C2. -/

/-- C2: `Bare` resolution order — a bound variable of the same name always
wins (even when the text is `true`/`false`/`null` or numeric), and only an
unbound name falls back to keyword, then numeric parse, then literal
string. -/
theorem bare_resolution_order (vars : Env) (t : String) :
    (envHas vars t = true → resolveValue vars (.bare t) = .ok (envGet vars t)) ∧
    (envHas vars t = false →
      resolveValue vars (.bare t) =
        .ok (if t = "true" then .bool true
             else if t = "false" then .bool false
             else if t = "null" then .null
             else match jsNumber t with
                  | some n => .num n
                  | none => .str t)) := by
  constructor <;> intro h
  · simp [resolveValue, h]
  · simp only [resolveValue, h, Bool.false_eq_true, if_false]
    split_ifs <;> try rfl
    cases jsNumber t <;> rfl

/-- Witness for C2: with `true` bound to the number 7, the bare word `true`
resolves to 7 (binding beats keyword); with an empty environment, the bare
word `42` falls back to its numeric parse. -/
theorem bare_resolution_order_witness :
    (envHas [("true", JSONLike.num 7)] "true" = true ∧
      resolveValue [("true", JSONLike.num 7)] (.bare "true") =
        .ok (envGet [("true", JSONLike.num 7)] "true")) ∧
    (envHas [] "42" = false ∧
      resolveValue [] (.bare "42") = .ok (.num 42)) :=
  ⟨⟨rfl, (bare_resolution_order [("true", JSONLike.num 7)] "true").1 rfl⟩,
   ⟨rfl, (bare_resolution_order [] "42").2 rfl⟩⟩

/-! ## Claim C4. -/

/-- C4 counterexample: the claim says `null != x` is true for non-null `x`
and `null != null` is false; the code returns `l === r` for every operator
whenever either operand is null, so `null != 5` evaluates to `false` and
`null != null` evaluates to `true`. -/
theorem cmp_null_ne_counterexample :
    evalCond [] (.cmp .ne .nullV (.number 5)) = .ok false ∧
    evalCond [] (.cmp .ne .nullV .nullV) = .ok true :=
  ⟨rfl, rfl⟩

/-- C4 (amended): when either resolved operand is null, every comparison
operator — `!=` included, which does not negate — yields true exactly when
both operands are null; ordering operators against a single null therefore
yield false.  When both operands are non-null the JavaScript operator applies
to the resolved values. -/
theorem cmp_null_semantics (vars : Env) (op : CmpOp) (l r : ValueE) (lv rv : JSONLike)
    (hl : resolveValue vars l = .ok lv) (hr : resolveValue vars r = .ok rv) :
    ((isNull lv || isNull rv) = true →
      evalCond vars (.cmp op l r) = .ok (isNull lv && isNull rv)) ∧
    ((isNull lv || isNull rv) = false →
      evalCond vars (.cmp op l r) = .ok (jsCmpOp op lv rv)) := by
  constructor <;> intro h
  · have hb := beqJSON_of_null lv rv h
    simp [evalCond, hl, hr, h, hb, exceptBind_ok]
    intro h1 h2
    simp [h1, h2] at h
  · simp [evalCond, hl, hr, h, exceptBind_ok]
    intro hc
    rcases hc with h1 | h1 <;> simp [h1] at h

/-- Witness for C4 (amended): `null < 3` evaluates to false via the null
branch, and `2 < 3` evaluates via the operator branch. -/
theorem cmp_null_semantics_witness :
    (resolveValue [] .nullV = .ok .null ∧
      resolveValue [] (.number 3) = .ok (.num 3) ∧
      (isNull JSONLike.null || isNull (JSONLike.num 3)) = true ∧
      evalCond [] (.cmp .lt .nullV (.number 3)) =
        .ok (isNull JSONLike.null && isNull (JSONLike.num 3))) ∧
    ((isNull (JSONLike.num 2) || isNull (JSONLike.num 3)) = false ∧
      evalCond [] (.cmp .lt (.number 2) (.number 3)) =
        .ok (jsCmpOp .lt (.num 2) (.num 3))) :=
  ⟨⟨rfl, rfl, rfl,
    (cmp_null_semantics [] .lt .nullV (.number 3) .null (.num 3) rfl rfl).1 rfl⟩,
   ⟨rfl,
    (cmp_null_semantics [] .lt (.number 2) (.number 3) (.num 2) (.num 3) rfl rfl).2 rfl⟩⟩

/-! ## Claim C8. -/

/-- C8 counterexample: the claim says indexing into null short-circuits to
null at any point along the path, and that resolution never throws.  With
`a = [null]`, the reference `$a[0][0]` reaches `null` after the first index
step and the second step throws (surfaced to the caller as `ok=false`), it
does not resolve to null. -/
theorem varref_deep_null_counterexample :
    resolveValue [("a", JSONLike.arr [JSONLike.null])] (.varRef "a" [0, 0]) =
      .error "Cannot read properties of null" :=
  rfl

/-- C8 (amended): a variable reference resolves to null when its head is
unbound or holds null (the only null test the code performs); otherwise the
index path is walked step by step, and an intermediate null/undefined value
with steps remaining throws instead of short-circuiting, while an empty
remaining path returns the current value as is. -/
theorem varref_resolution_semantics :
    (∀ (vars : Env) (name : String) (idxs : List ℚ),
      looseNull (envGet vars name) = true →
      resolveValue vars (.varRef name idxs) = .ok .null) ∧
    (∀ (vars : Env) (name : String) (idxs : List ℚ),
      looseNull (envGet vars name) = false →
      resolveValue vars (.varRef name idxs) = walkPath (envGet vars name) idxs) ∧
    (∀ (cur : JSONLike) (i : ℚ) (rest : List ℚ),
      looseNull cur = true →
      ∃ e, walkPath cur (i :: rest) = .error e) ∧
    (∀ cur : JSONLike, walkPath cur [] = .ok cur) := by
  refine ⟨?_, ?_, ?_, ?_⟩
  · intro vars name idxs h
    simp [resolveValue, h]
  · intro vars name idxs h
    simp [resolveValue, h]
  · intro cur i rest h
    cases cur with
    | null =>
        exact ⟨"Cannot read properties of null",
          by simp [walkPath, jsIndex, exceptBind_error]⟩
    | undef =>
        exact ⟨"Cannot read properties of undefined",
          by simp [walkPath, jsIndex, exceptBind_error]⟩
    | bool b => simp [looseNull] at h
    | num q => simp [looseNull] at h
    | str s => simp [looseNull] at h
    | arr xs => simp [looseNull] at h
    | obj es => simp [looseNull] at h
  · intro cur
    simp [walkPath]

/-- Witness for C8 (amended): an unbound head resolves to null; a bound
non-null head walks the path; a null intermediate with remaining steps
throws; an exhausted path returns the current value. -/
theorem varref_resolution_semantics_witness :
    (looseNull (envGet [] "x") = true ∧
      resolveValue [] (.varRef "x" [1]) = .ok .null) ∧
    (looseNull (envGet [("a", JSONLike.arr [JSONLike.num 9])] "a") = false ∧
      resolveValue [("a", JSONLike.arr [JSONLike.num 9])] (.varRef "a" [0]) =
        walkPath (envGet [("a", JSONLike.arr [JSONLike.num 9])] "a") [0]) ∧
    (looseNull JSONLike.null = true ∧
      ∃ e, walkPath JSONLike.null [0] = .error e) ∧
    walkPath (JSONLike.num 5) [] = .ok (.num 5) :=
  ⟨⟨rfl, varref_resolution_semantics.1 [] "x" [1] rfl⟩,
   ⟨rfl, varref_resolution_semantics.2.1 [("a", JSONLike.arr [JSONLike.num 9])] "a" [0] rfl⟩,
   ⟨rfl, varref_resolution_semantics.2.2.1 JSONLike.null 0 [] rfl⟩,
   varref_resolution_semantics.2.2.2 (JSONLike.num 5)⟩

/-! ## Claim C9. -/

/-- C9: the claim states a `LET` statement followed by a token other than
NEWLINE or end-of-input is rejected with a syntax error.  The source's
`expectNL` skips newlines, returns at EOF, and otherwise falls through
without throwing, so `LET a = 1 RETURN 2` on a single line parses
successfully into two statements — the terminator is not enforced.  The
dangling early-return structure of `expectNL` and the spec show the intended
check; the code is missing it: a code bug. -/
theorem let_terminator_not_enforced :
    parseToolScript "LET a = 1 RETURN 2\n" =
      .ok { requiredCapabilities := [], invocations := [],
            plan := .script [.letS "a" (.number 1), .ret (.number 2)] } :=
  rfl

/-! ## Claim C10. -/

/-- C10: `deadlineMs = 0` is falsy in the source's `options.deadlineMs ?
start + options.deadlineMs : Infinity`, so a zero deadline computes the same
infinite deadline as an omitted one and the whole execution behaves exactly
as if `deadlineMs` were omitted, for every plan, capability mapping, step
budget, dry-run flag and wall clock. -/
theorem zero_deadline_means_no_deadline (plan : PlanNode) (caps : Capabilities)
    (ms : Option ℕ) (dr : Bool) (clock : ℕ → ℤ) :
    executeToolScript plan caps ⟨ms, some 0, dr⟩ clock =
      executeToolScript plan caps ⟨ms, none, dr⟩ clock ∧
    mkDeadline (some 0) (clock 0) = none := by
  exact ⟨rfl, rfl⟩

/-! ## State-shape lemmas for the limit checks. -/

/-- `checkLimits` never touches the environment or the trace. -/
theorem checkLimits_vars_trace (ctx : Ctx) (st : ExecState) :
    ((checkLimits ctx st).1).vars = st.vars ∧ ((checkLimits ctx st).1).trace = st.trace := by
  simp only [checkLimits, readClock]
  split_ifs <;> exact ⟨rfl, rfl⟩

/-- `checkDeadline` never touches the environment or the trace. -/
theorem checkDeadline_vars_trace (ctx : Ctx) (st : ExecState) :
    ((checkDeadline ctx st).1).vars = st.vars ∧ ((checkDeadline ctx st).1).trace = st.trace := by
  simp only [checkDeadline, readClock]
  split_ifs <;> exact ⟨rfl, rfl⟩

/-- `collapse` only reshapes the outcome, not the state. -/
theorem collapse_fst (p : ExecState × Except String (Option JSONLike)) :
    (collapse p).1 = p.1 := by
  obtain ⟨st, r⟩ := p
  cases r with
  | error e => rfl
  | ok o => cases o <;> rfl

/-! ## Claim C3. -/

/-- C3: `executeToolScript` is a total function of its inputs (the embedding
of the source's top-level `try/catch`): whatever the plan, capabilities
(which may themselves throw), options and wall clock, the result is either
`ok=true` with the propagated return value and no error, or `ok=false` with
the thrown message as the error string — and in both cases the environment
and trace are exactly those of the state at which `runBlock` stopped. -/
theorem execute_never_throws (plan : PlanNode) (caps : Capabilities)
    (options : ExecutionOptions) (clock : ℕ → ℤ) :
    ∃ (st : ExecState) (out : Except String JSONLike),
      runBlock (mkCtx caps options clock) plan initState = (st, out) ∧
      executeToolScript plan caps options clock =
        (match out with
         | .ok r => { ok := true, ret := r, error := none, vars := st.vars, trace := st.trace }
         | .error e => { ok := false, ret := .undef, error := some e,
                         vars := st.vars, trace := st.trace }) ∧
      ((executeToolScript plan caps options clock).ok = true ∧
        (executeToolScript plan caps options clock).error = none ∨
       (executeToolScript plan caps options clock).ok = false ∧
        ∃ msg, (executeToolScript plan caps options clock).error = some msg) := by
  rcases hrb : runBlock (mkCtx caps options clock) plan initState with ⟨st, out⟩
  refine ⟨st, out, rfl, ?_, ?_⟩ <;> cases out <;> simp [executeToolScript, hrb]

/-! ## The trace is append-only: every run extends it. -/

mutual
/-- A block run only appends to the trace. -/
theorem runBlock_trace_mono (ctx : Ctx) (n : PlanNode) (st : ExecState) :
    ∃ ext, ((runBlock ctx n st).1).trace = st.trace ++ ext := by
  rw [runBlock.eq_def]
  rcases h1 : checkLimits ctx st with ⟨st1, r1⟩
  have ht1 : st1.trace = st.trace := by
    have h := (checkLimits_vars_trace ctx st).2
    rw [h1] at h
    exact h
  cases r1 with
  | error e => exact ⟨[], by simp [h1, ht1]⟩
  | ok u =>
      cases u
      cases n with
      | script body =>
          obtain ⟨ext, hext⟩ := runStmts_trace_mono ctx body st1
          exact ⟨ext, by simp [h1, collapse_fst, hext, ht1]⟩
      | block body =>
          obtain ⟨ext, hext⟩ := runStmts_trace_mono ctx body st1
          exact ⟨ext, by simp [h1, collapse_fst, hext, ht1]⟩
termination_by (sizeOf n, 0)

/-- A statement-list run only appends to the trace. -/
theorem runStmts_trace_mono (ctx : Ctx) (l : List Stmt) (st : ExecState) :
    ∃ ext, ((runStmts ctx l st).1).trace = st.trace ++ ext := by
  cases l with
  | nil => exact ⟨[], by rw [runStmts.eq_def]; simp⟩
  | cons s rest =>
      rw [runStmts.eq_def]
      rcases h1 : checkLimits ctx st with ⟨st1, r1⟩
      have ht1 : st1.trace = st.trace := by
        have h := (checkLimits_vars_trace ctx st).2
        rw [h1] at h
        exact h
      cases r1 with
      | error e => exact ⟨[], by simp [h1, ht1]⟩
      | ok u =>
          cases u
          rcases h2 : checkDeadline ctx st1 with ⟨st2, r2⟩
          have ht2 : st2.trace = st1.trace := by
            have h := (checkDeadline_vars_trace ctx st1).2
            rw [h2] at h
            exact h
          cases r2 with
          | error e => exact ⟨[], by simp [h1, h2, ht1, ht2]⟩
          | ok u2 =>
              cases u2
              rcases h3 : runStmt ctx s st2 with ⟨st3, r3⟩
              have hm3 := runStmt_trace_mono ctx s st2
              rw [h3] at hm3
              obtain ⟨ext3, hext3⟩ := hm3
              dsimp only at hext3
              cases r3 with
              | error e => exact ⟨ext3, by simp [h1, h2, h3, hext3, ht1, ht2]⟩
              | ok o =>
                  cases o with
                  | some v => exact ⟨ext3, by simp [h1, h2, h3, hext3, ht1, ht2]⟩
                  | none =>
                      obtain ⟨ext4, hext4⟩ := runStmts_trace_mono ctx rest st3
                      exact ⟨ext3 ++ ext4, by simp [h1, h2, h3, hext4, hext3, ht1, ht2]⟩
termination_by (sizeOf l, 0)

/-- A single statement run only appends to the trace. -/
theorem runStmt_trace_mono (ctx : Ctx) (s : Stmt) (st : ExecState) :
    ∃ ext, ((runStmt ctx s st).1).trace = st.trace ++ ext := by
  cases s with
  | empty => exact ⟨[], by rw [runStmt.eq_def]; simp⟩
  | letS name expr =>
      rw [runStmt.eq_def]
      cases hr : resolveValue st.vars expr with
      | error e => exact ⟨[], by simp [hr]⟩
      | ok v => exact ⟨[.letE name v], by simp [hr]⟩
  | call nm args capture =>
      rw [runStmt.eq_def]
      cases hc : ctx.caps nm with
      | none => exact ⟨[], by simp [hc]⟩
      | some cap =>
          cases hra : resolveEntries st.vars args [] with
          | error e => exact ⟨[], by simp [hc, hra]⟩
          | ok ra =>
              cases hcall : (if ctx.dryRun then Except.ok JSONLike.null else cap (.obj ra)) with
              | error e => exact ⟨[], by simp [hc, hra, hcall]⟩
              | ok result =>
                  exact ⟨[.callE nm ra capture result],
                    by cases capture <;> simp [hc, hra, hcall]⟩
  | ifS cond thenB elseB =>
      rw [runStmt.eq_def]
      cases hec : evalCond st.vars cond with
      | error e => exact ⟨[], by simp [hec]⟩
      | ok b =>
          rcases hrb : runBlock ctx (if b then thenB else elseB.getD (.block []))
              { st with trace := st.trace ++ [.ifE cond b] } with ⟨st2, r2⟩
          have hm := runBlock_trace_mono ctx (if b then thenB else elseB.getD (.block []))
              { st with trace := st.trace ++ [.ifE cond b] }
          rw [hrb] at hm
          obtain ⟨ext2, hext2⟩ := hm
          dsimp only at hext2
          cases r2 with
          | error e => exact ⟨[.ifE cond b] ++ ext2, by simp [hec, hrb, hext2]⟩
          | ok r =>
              exact ⟨[.ifE cond b] ++ ext2, by simp [hec, hrb]; split <;> simp [hext2]⟩
  | forS item iterable body =>
      rw [runStmt.eq_def]
      cases hr : resolveValue st.vars iterable with
      | error e => exact ⟨[], by simp [hr]⟩
      | ok collection =>
          cases collection with
          | arr xs =>
              rcases hrf : runFor ctx item body xs 0 st with ⟨st2, r2⟩
              have hm := runFor_trace_mono ctx item body xs 0 st
              rw [hrf] at hm
              obtain ⟨ext2, hext2⟩ := hm
              dsimp only at hext2
              cases r2 with
              | error e => exact ⟨ext2, by simp [hr, hrf, hext2]⟩
              | ok r => exact ⟨ext2, by simp [hr, hrf, hext2]⟩
          | undef => exact ⟨[], by simp [hr]⟩
          | null => exact ⟨[], by simp [hr]⟩
          | bool b => exact ⟨[], by simp [hr]⟩
          | num q => exact ⟨[], by simp [hr]⟩
          | str s2 => exact ⟨[], by simp [hr]⟩
          | obj es => exact ⟨[], by simp [hr]⟩
  | ret expr =>
      rw [runStmt.eq_def]
      dsimp only
      split
      next e heq => exact ⟨[], by simp⟩
      next val heq => exact ⟨[.retE val], by simp⟩
termination_by (sizeOf s, 0)
decreasing_by
  all_goals
    first
      | decreasing_tactic
      | (simp_wf
         apply Prod.Lex.left
         first
           | apply ifBranch_sizeOf_lt
           | apply forBody_sizeOf_lt)

/-- A loop run only appends to the trace. -/
theorem runFor_trace_mono (ctx : Ctx) (item : String) (body : PlanNode)
    (vals : List JSONLike) (idx : ℕ) (st : ExecState) :
    ∃ ext, ((runFor ctx item body vals idx st).1).trace = st.trace ++ ext := by
  cases vals with
  | nil => exact ⟨[], by rw [runFor.eq_def]; simp⟩
  | cons v rest =>
      rw [runFor.eq_def]
      rcases h1 : checkLimits ctx st with ⟨st1, r1⟩
      have ht1 : st1.trace = st.trace := by
        have h := (checkLimits_vars_trace ctx st).2
        rw [h1] at h
        exact h
      cases r1 with
      | error e => exact ⟨[], by simp [h1, ht1]⟩
      | ok u =>
          cases u
          rcases hrb : runBlock ctx body
              { st1 with vars := envSet st1.vars item v,
                         trace := st1.trace ++ [.forIter item idx v] } with ⟨st3, r3⟩
          have hm := runBlock_trace_mono ctx body
              { st1 with vars := envSet st1.vars item v,
                         trace := st1.trace ++ [.forIter item idx v] }
          rw [hrb] at hm
          obtain ⟨ext2, hext2⟩ := hm
          dsimp only at hext2
          rw [ht1] at hrb hext2
          cases r3 with
          | error e => exact ⟨[.forIter item idx v] ++ ext2, by simp [h1, hrb, hext2, ht1]⟩
          | ok r =>
              by_cases hu : isUndef r = true
              · obtain ⟨ext3, hext3⟩ := runFor_trace_mono ctx item body rest (idx + 1) st3
                exact ⟨[.forIter item idx v] ++ ext2 ++ ext3,
                  by simp [h1, hrb, hu, hext3, hext2, ht1]⟩
              · exact ⟨[.forIter item idx v] ++ ext2, by simp [h1, hrb, hu, hext2, ht1]⟩
termination_by (sizeOf body + 1, vals.length)
end

/-! ## Dry-run executions never invoke a capability: the run depends on the
capability mapping only through which names are present. -/

mutual
/-- A dry-run block execution is identical under any capability mapping with
the same domain. -/
theorem runBlock_caps_ext (ctx : Ctx) (caps' : Capabilities) (n : PlanNode) (st : ExecState)
    (hdry : ctx.dryRun = true) (hdom : ∀ k, (ctx.caps k).isSome = (caps' k).isSome) :
    runBlock { ctx with caps := caps' } n st = runBlock ctx n st := by
  simp only [runBlock.eq_def]
  have hcl : checkLimits { ctx with caps := caps' } st = checkLimits ctx st := rfl
  rw [hcl]
  rcases h1 : checkLimits ctx st with ⟨st1, r1⟩
  cases r1 with
  | error e => rfl
  | ok u =>
      cases u
      cases n with
      | script body =>
          dsimp only
          rw [runStmts_caps_ext ctx caps' body st1 hdry hdom]
      | block body =>
          dsimp only
          rw [runStmts_caps_ext ctx caps' body st1 hdry hdom]
termination_by (sizeOf n, 0)

/-- A dry-run statement-list execution is identical under any capability
mapping with the same domain. -/
theorem runStmts_caps_ext (ctx : Ctx) (caps' : Capabilities) (l : List Stmt) (st : ExecState)
    (hdry : ctx.dryRun = true) (hdom : ∀ k, (ctx.caps k).isSome = (caps' k).isSome) :
    runStmts { ctx with caps := caps' } l st = runStmts ctx l st := by
  cases l with
  | nil =>
      conv_lhs => rw [runStmts.eq_def]
      conv_rhs => rw [runStmts.eq_def]
  | cons s rest =>
      conv_lhs => rw [runStmts.eq_def]
      conv_rhs => rw [runStmts.eq_def]
      have hcl : checkLimits { ctx with caps := caps' } st = checkLimits ctx st := rfl
      rw [hcl]
      rcases h1 : checkLimits ctx st with ⟨st1, r1⟩
      cases r1 with
      | error e => rfl
      | ok u =>
          cases u
          dsimp only
          have hcd : checkDeadline { ctx with caps := caps' } st1 = checkDeadline ctx st1 := rfl
          rw [hcd]
          rcases h2 : checkDeadline ctx st1 with ⟨st2, r2⟩
          cases r2 with
          | error e => rfl
          | ok u2 =>
              cases u2
              dsimp only
              rw [runStmt_caps_ext ctx caps' s st2 hdry hdom]
              rcases h3 : runStmt ctx s st2 with ⟨st3, r3⟩
              cases r3 with
              | error e => rfl
              | ok o =>
                  cases o with
                  | some v => rfl
                  | none =>
                      dsimp only
                      rw [runStmts_caps_ext ctx caps' rest st3 hdry hdom]
termination_by (sizeOf l, 0)

/-- A dry-run statement execution is identical under any capability mapping
with the same domain: the `Call` case looks the capability up but, because
`dryRun` is set, never invokes it. -/
theorem runStmt_caps_ext (ctx : Ctx) (caps' : Capabilities) (s : Stmt) (st : ExecState)
    (hdry : ctx.dryRun = true) (hdom : ∀ k, (ctx.caps k).isSome = (caps' k).isSome) :
    runStmt { ctx with caps := caps' } s st = runStmt ctx s st := by
  cases s with
  | empty => simp only [runStmt.eq_def]
  | letS name expr => simp only [runStmt.eq_def]
  | call nm args capture =>
      simp only [runStmt.eq_def]
      cases hc : ctx.caps nm with
      | none =>
          have hc' : caps' nm = none := by
            have h := hdom nm
            rw [hc] at h
            cases hcc : caps' nm
            · rfl
            · rw [hcc] at h
              simp only [Option.isSome_none, Option.isSome_some] at h
              exact Bool.noConfusion h
          rw [hc']
      | some cap =>
          obtain ⟨cap', hc'⟩ : ∃ cap', caps' nm = some cap' := by
            have h := hdom nm
            rw [hc] at h
            cases hcc : caps' nm
            · rw [hcc] at h
              simp only [Option.isSome_none, Option.isSome_some] at h
              exact Bool.noConfusion h
            · exact ⟨_, rfl⟩
          rw [hc']
          simp [hdry]
  | ifS cond thenB elseB =>
      simp only [runStmt.eq_def]
      rcases hec : evalCond st.vars cond with e | b
      · rfl
      · dsimp only
        rw [runBlock_caps_ext ctx caps' (if b then thenB else elseB.getD (.block []))
            { st with trace := st.trace ++ [.ifE cond b] } hdry hdom]
  | forS item iterable body =>
      simp only [runStmt.eq_def]
      rcases hr : resolveValue st.vars iterable with e | collection
      · rfl
      · cases collection with
        | arr xs =>
            dsimp only
            rw [runFor_caps_ext ctx caps' item body xs 0 st hdry hdom]
        | undef => rfl
        | null => rfl
        | bool b => rfl
        | num q => rfl
        | str s2 => rfl
        | obj es => rfl
  | ret expr => simp only [runStmt.eq_def]
termination_by (sizeOf s, 0)
decreasing_by
  all_goals
    first
      | decreasing_tactic
      | (simp_wf
         apply Prod.Lex.left
         first
           | apply ifBranch_sizeOf_lt
           | apply forBody_sizeOf_lt)

/-- A dry-run loop execution is identical under any capability mapping with
the same domain. -/
theorem runFor_caps_ext (ctx : Ctx) (caps' : Capabilities) (item : String) (body : PlanNode)
    (vals : List JSONLike) (idx : ℕ) (st : ExecState)
    (hdry : ctx.dryRun = true) (hdom : ∀ k, (ctx.caps k).isSome = (caps' k).isSome) :
    runFor { ctx with caps := caps' } item body vals idx st = runFor ctx item body vals idx st := by
  cases vals with
  | nil =>
      conv_lhs => rw [runFor.eq_def]
      conv_rhs => rw [runFor.eq_def]
  | cons v rest =>
      conv_lhs => rw [runFor.eq_def]
      conv_rhs => rw [runFor.eq_def]
      have hcl : checkLimits { ctx with caps := caps' } st = checkLimits ctx st := rfl
      rw [hcl]
      rcases h1 : checkLimits ctx st with ⟨st1, r1⟩
      cases r1 with
      | error e => rfl
      | ok u =>
          cases u
          dsimp only
          rw [runBlock_caps_ext ctx caps' body
            { st1 with vars := envSet st1.vars item v,
                       trace := st1.trace ++ [.forIter item idx v] } hdry hdom]
          rcases hrb : runBlock ctx body
              { st1 with vars := envSet st1.vars item v,
                         trace := st1.trace ++ [.forIter item idx v] } with ⟨st3, r3⟩
          cases r3 with
          | error e => rfl
          | ok r =>
              by_cases hu : isUndef r = true
              · simp only [hu, if_true]
                exact runFor_caps_ext ctx caps' item body rest (idx + 1) st3 hdry hdom
              · simp [hu]
termination_by (sizeOf body + 1, vals.length)
end

/-! ## Claim C7. -/

/-- C7: with `dryRun=true` no capability callable is ever invoked — the whole
execution is identical under any two capability mappings that make the same
names available (the lookup still happens, and an unknown tool still errors,
but the callables themselves are never applied); and every executed `Call`
with a capture binds that capture variable to null while appending exactly
one CALL trace entry carrying the resolved arguments and a null result.
Determinism of two dry runs of the same plan is immediate: the embedded
semantics is a function of its arguments. -/
theorem dry_run_semantics :
    (∀ (plan : PlanNode) (caps caps' : Capabilities) (options : ExecutionOptions)
       (clock : ℕ → ℤ),
      options.dryRun = true →
      (∀ k, (caps k).isSome = (caps' k).isSome) →
      executeToolScript plan caps options clock = executeToolScript plan caps' options clock) ∧
    (∀ (ctx : Ctx) (nm : String) (args : List (String × ValueE)) (cv : String)
       (st : ExecState) (cap : Capability) (ra : Env),
      ctx.dryRun = true →
      ctx.caps nm = some cap →
      resolveEntries st.vars args [] = .ok ra →
      runStmt ctx (.call nm args (some cv)) st =
        ({ st with vars := envSet st.vars cv .null,
                   trace := st.trace ++ [.callE nm ra (some cv) .null] }, .ok none) ∧
      envLookup (envSet st.vars cv JSONLike.null) cv = some .null) := by
  constructor
  · intro plan caps caps' options clock hdry hdom
    have h := runBlock_caps_ext (mkCtx caps options clock) caps' plan initState hdry hdom
    have hmk : mkCtx caps' options clock =
        { mkCtx caps options clock with caps := caps' } := rfl
    simp only [executeToolScript, hmk, h]
  · intro ctx nm args cv st cap ra hdry hc hra
    refine ⟨?_, envLookup_envSet_self st.vars cv .null⟩
    simp [runStmt.eq_def, hc, hra, hdry]

/-- The two concrete capability mappings of the C7 witness: same domain,
different callables. -/
def capsSampleA : Capabilities :=
  fun k => if k = "t" then some (fun _ => .ok (.num 1)) else none

/-- Second capability mapping for the C7 witness. -/
def capsSampleB : Capabilities :=
  fun k => if k = "t" then some (fun _ => .ok (.num 2)) else none

/-- A fixed context for the C7 witness (dry run enabled). -/
def ctxDryW : Ctx :=
  { caps := capsSampleA, maxSteps := 1000, deadline := none, dryRun := true,
    clock := fun _ => 0 }

/-- Witness for C7: a dry run of a one-call plan gives the same result under
`capsSampleA` and `capsSampleB`, and the call statement binds its capture to
null with one CALL trace entry. -/
theorem dry_run_semantics_witness :
    (executeToolScript (.script [.call "t" [] (some "x")]) capsSampleA
        { maxSteps := none, deadlineMs := none, dryRun := true } (fun _ => 0) =
      executeToolScript (.script [.call "t" [] (some "x")]) capsSampleB
        { maxSteps := none, deadlineMs := none, dryRun := true } (fun _ => 0)) ∧
    (runStmt ctxDryW (.call "t" [] (some "x")) initState =
      ({ initState with vars := envSet initState.vars "x" .null,
                        trace := initState.trace ++ [.callE "t" [] (some "x") .null] },
        .ok none) ∧
     envLookup (envSet initState.vars "x" JSONLike.null) "x" = some .null) :=
  ⟨dry_run_semantics.1 (.script [.call "t" [] (some "x")]) capsSampleA capsSampleB
      { maxSteps := none, deadlineMs := none, dryRun := true } (fun _ => 0) rfl
      (fun k => by by_cases h : k = "t" <;> simp [capsSampleA, capsSampleB, h]),
   dry_run_semantics.2 ctxDryW "t" [] "x" initState (fun _ => .ok (.num 1)) []
      rfl rfl rfl⟩

/-! ## Claim C5. -/

/-- The FOR_ITER trace entries a loop records for the given elements,
starting at the given zero-based index. -/
def forIterEntries (item : String) : ℕ → List JSONLike → List TraceEntry
  | _, [] => []
  | idx, v :: rest => .forIter item idx v :: forIterEntries item (idx + 1) rest

/-- A loop run that does not throw executed some prefix of the iterations
(all of them when it completed normally), appending to the trace one
FOR_ITER entry per executed iteration, in index order (each iteration's body
entries interleave after its FOR_ITER entry). -/
theorem runFor_ok_trace (ctx : Ctx) (item : String) (body : PlanNode) :
    ∀ (vals : List JSONLike) (idx : ℕ) (st st' : ExecState) (r : Option JSONLike),
      runFor ctx item body vals idx st = (st', .ok r) →
      ∃ k ext, k ≤ vals.length ∧ (r = none → k = vals.length) ∧
        st'.trace = st.trace ++ ext ∧
        List.Sublist (forIterEntries item idx (vals.take k)) ext := by
  intro vals
  induction vals with
  | nil =>
      intro idx st st' r h
      rw [runFor.eq_def] at h
      injection h with hst hr
      injection hr with hr2
      exact ⟨0, [], Nat.zero_le _, fun _ => rfl, by rw [← hst]; simp,
        by simp [forIterEntries]⟩
  | cons v rest ih =>
      intro idx st st' r h
      rw [runFor.eq_def] at h
      rcases h1 : checkLimits ctx st with ⟨st1, r1⟩
      rw [h1] at h
      have ht1 : st1.trace = st.trace := by
        have hh := (checkLimits_vars_trace ctx st).2
        rw [h1] at hh
        exact hh
      cases r1 with
      | error e =>
          injection h with hst hr
          exact Except.noConfusion hr
      | ok u =>
          cases u
          dsimp only at h
          rcases hrb : runBlock ctx body
              { st1 with vars := envSet st1.vars item v,
                         trace := st1.trace ++ [.forIter item idx v] } with ⟨st3, rb⟩
          rw [hrb] at h
          have hm := runBlock_trace_mono ctx body
              { st1 with vars := envSet st1.vars item v,
                         trace := st1.trace ++ [.forIter item idx v] }
          rw [hrb] at hm
          obtain ⟨ext2, hext2⟩ := hm
          dsimp only at hext2 h
          cases rb with
          | error e =>
              injection h with hst hr
              exact Except.noConfusion hr
          | ok rv =>
              dsimp only at h
              by_cases hu : isUndef rv = true
              · rw [if_pos hu] at h
                obtain ⟨k, ext, hk, hnone, htr, hsub⟩ := ih (idx + 1) st3 st' r h
                refine ⟨k + 1, [TraceEntry.forIter item idx v] ++ ext2 ++ ext,
                  by simpa using Nat.succ_le_succ hk,
                  fun hr => by rw [hnone hr]; rfl, ?_, ?_⟩
                · rw [htr, hext2, ht1]
                  simp
                · rw [List.take_succ_cons]
                  show List.Sublist
                    (TraceEntry.forIter item idx v :: forIterEntries item (idx + 1) (rest.take k)) _
                  have hx : List.Sublist (forIterEntries item (idx + 1) (rest.take k))
                      (ext2 ++ ext) :=
                    hsub.trans (List.sublist_append_right ext2 ext)
                  simpa using List.Sublist.cons₂ (TraceEntry.forIter item idx v) hx
              · rw [if_neg hu] at h
                injection h with hst hr
                injection hr with hr2
                refine ⟨1, [TraceEntry.forIter item idx v] ++ ext2,
                  by simp, fun hrn => ?_, ?_, ?_⟩
                · rw [hrn] at hr2
                  exact Option.noConfusion hr2
                · rw [← hst, hext2, ht1]
                  simp
                · simp [forIterEntries]

/-- C5: the `For` statement's observable frame effect.  If the statement
completes without throwing (normally or by early return), the loop
variable's binding in the final environment is exactly what it was before
the loop — absent if it was absent, restored to its prior value otherwise,
whatever the body did.  A non-array iterable is the execution error the
source throws before touching any state.  And when the iterable resolved to
an array, the trace grew by a prefix-in-index-order of FOR_ITER entries (all
`k = xs.length` of them on normal completion), with one entry per executed
iteration. -/
theorem for_loop_scoping (ctx : Ctx) (item : String) (iterable : ValueE)
    (body : PlanNode) (st : ExecState) :
    (∀ (st' : ExecState) (r : Option JSONLike),
      runStmt ctx (.forS item iterable body) st = (st', .ok r) →
      envLookup st'.vars item = envLookup st.vars item) ∧
    (∀ cv, resolveValue st.vars iterable = .ok cv → isArray cv = false →
      runStmt ctx (.forS item iterable body) st =
        (st, .error "FOR expects iterable to resolve to an array")) ∧
    (∀ (xs : List JSONLike) (st' : ExecState) (r : Option JSONLike),
      resolveValue st.vars iterable = .ok (.arr xs) →
      runStmt ctx (.forS item iterable body) st = (st', .ok r) →
      ∃ k ext, k ≤ xs.length ∧ (r = none → k = xs.length) ∧
        st'.trace = st.trace ++ ext ∧
        List.Sublist (forIterEntries item 0 (xs.take k)) ext) := by
  refine ⟨?_, ?_, ?_⟩
  · intro st' r h
    rw [runStmt.eq_def] at h
    dsimp only at h
    rcases hres : resolveValue st.vars iterable with e | coll
    all_goals rw [hres] at h
    · injection h with hst hr
      exact Except.noConfusion hr
    · cases coll with
      | arr xs =>
          dsimp only at h
          rcases hrf : runFor ctx item body xs 0 st with ⟨st2, r2⟩
          rw [hrf] at h
          cases r2 with
          | error e =>
              injection h with hst hr
              exact Except.noConfusion hr
          | ok rr =>
              injection h with hst hr
              rw [← hst]
              exact envLookup_restoreBinding st2.vars st.vars item
      | undef => exact absurd h (by simp)
      | null => exact absurd h (by simp)
      | bool b => exact absurd h (by simp)
      | num q => exact absurd h (by simp)
      | str s2 => exact absurd h (by simp)
      | obj es => exact absurd h (by simp)
  · intro cv hres hna
    rw [runStmt.eq_def]
    dsimp only
    rw [hres]
    cases cv <;> simp_all [isArray]
  · intro xs st' r hres h
    rw [runStmt.eq_def] at h
    dsimp only at h
    rw [hres] at h
    dsimp only at h
    rcases hrf : runFor ctx item body xs 0 st with ⟨st2, r2⟩
    rw [hrf] at h
    cases r2 with
    | error e =>
        injection h with hst hr
        exact Except.noConfusion hr
    | ok rr =>
        injection h with hst hr
        obtain ⟨k, ext, hk, hnone, htr, hsub⟩ :=
          runFor_ok_trace ctx item body xs 0 st st2 rr hrf
        injection hr with hr2
        refine ⟨k, ext, hk, fun hrn => hnone (hr2.trans hrn), ?_, hsub⟩
        rw [← hst]
        exact htr

/-- A fixed context for the C5 witness. -/
def ctxLoopW : Ctx :=
  { caps := fun _ => none, maxSteps := 1000, deadline := none, dryRun := false,
    clock := fun _ => 0 }

/-- The starting state of the C5 witness: the loop variable `i` already
bound (to 9), so the restore path is exercised. -/
def stLoopW : ExecState :=
  { vars := [("i", .num 9)], trace := [], steps := 0, tick := 0 }

/-- The final state of the C5 witness's one-iteration loop. -/
def stLoopW2 : ExecState :=
  { vars := [("i", .num 9)], trace := [.forIter "i" 0 (.num 5)], steps := 2, tick := 2 }

/-- Witness for C5: a one-element loop over `[5]` with prior binding `i = 9`
runs one iteration (one FOR_ITER entry) and restores `i` to 9; a numeric
iterable is the execution error. -/
theorem for_loop_scoping_witness :
    (runStmt ctxLoopW (.forS "i" (.arrV [.number 5]) (.block [])) stLoopW =
        (stLoopW2, .ok none) ∧
      envLookup stLoopW2.vars "i" = envLookup stLoopW.vars "i") ∧
    (resolveValue stLoopW.vars (.number 3) = .ok (.num 3) ∧
      isArray (.num 3) = false ∧
      runStmt ctxLoopW (.forS "i" (.number 3) (.block [])) stLoopW =
        (stLoopW, .error "FOR expects iterable to resolve to an array")) := by
  have heval : runStmt ctxLoopW (.forS "i" (.arrV [.number 5]) (.block [])) stLoopW =
      (stLoopW2, .ok none) := by
    simp [runStmt.eq_def, runFor.eq_def, runBlock.eq_def, runStmts.eq_def,
      checkLimits, readClock, pastDeadline, checkDeadline, resolveValue,
      resolveList, collapse, isUndef, ctxLoopW, stLoopW, stLoopW2, envSet,
      envHas, envGet, envLookup, envDel, restoreBinding, exceptBind_ok]
  exact ⟨⟨heval,
      (for_loop_scoping ctxLoopW "i" (.arrV [.number 5]) (.block []) stLoopW).1
        stLoopW2 none heval⟩,
    rfl, rfl,
    (for_loop_scoping ctxLoopW "i" (.number 3) (.block []) stLoopW).2.1
      (.num 3) rfl rfl⟩

/-! ## Claim C6. -/

/-- The first `N` naturals as rationals, the loop array for `forPlanN`. -/
def natNums (N : ℕ) : List ℚ :=
  (List.range N).map (fun j : ℕ => (j : ℚ))

/-- The `natNums` array, resolved to runtime numbers, has `N` elements. -/
theorem natNums_num_length (N : ℕ) : ((natNums N).map JSONLike.num).length = N := by
  simp [natNums]

/-- A plan consisting of one `For` loop over an `N`-element array literal
with an empty body (the claim's example shape). -/
def forPlanN (N : ℕ) : PlanNode :=
  .script [.forS "i" (.arrV ((natNums N).map ValueE.number)) (.block [])]

/-- Array literals of numbers resolve elementwise. -/
theorem resolveList_numbers (vars : Env) (l : List ℚ) :
    resolveList vars (l.map ValueE.number) = .ok (l.map JSONLike.num) := by
  induction l with
  | nil => rfl
  | cons q rest ih => simp [resolveList, resolveValue, ih, exceptBind_ok]

/-- With a constant-zero clock, a natural-number `deadlineMs` never trips the
deadline check, whatever its value. -/
theorem pastDeadline_mkDeadline_nat (d : ℕ) :
    pastDeadline (mkDeadline (some (d : ℤ)) 0) 0 = false := by
  by_cases h : (d : ℤ) = 0 <;> simp [mkDeadline, pastDeadline, h]

/-- Running the loop of `forPlanN` with too small a step budget aborts with
the step-limit error, the trace holding the FOR_ITER entries of the
iterations that started before the abort. -/
theorem runFor_empty_body_abort (ctx : Ctx) (item : String)
    (hdl : ∀ t, pastDeadline ctx.deadline (ctx.clock t) = false) :
    ∀ (vals : List JSONLike) (idx : ℕ) (st : ExecState),
      st.steps ≤ ctx.maxSteps →
      ctx.maxSteps < st.steps + 2 * vals.length →
      ∃ st' k, runFor ctx item (.block []) vals idx st =
          (st', .error "Step limit exceeded") ∧
        k ≤ vals.length ∧
        st'.trace = st.trace ++ forIterEntries item idx (vals.take k) := by
  intro vals
  induction vals with
  | nil =>
      intro idx st hle hgt
      exfalso
      simp at hgt
      omega
  | cons v rest ih =>
      intro idx st hle hgt
      rw [runFor.eq_def]
      by_cases hstep : st.steps + 1 > ctx.maxSteps
      · have hcl : checkLimits ctx st =
            ({ st with steps := st.steps + 1 }, .error "Step limit exceeded") := by
          simp [checkLimits, hstep]
        rw [hcl]
        exact ⟨_, 0, rfl, Nat.zero_le _, by simp [forIterEntries]⟩
      · have hcl : checkLimits ctx st =
            ({ st with steps := st.steps + 1, tick := st.tick + 1 }, .ok ()) := by
          simp [checkLimits, readClock, hstep, hdl]
        rw [hcl]
        dsimp only
        by_cases hstep2 : st.steps + 2 > ctx.maxSteps
        · have hrb : runBlock ctx (.block [])
              { vars := envSet st.vars item v,
                trace := st.trace ++ [TraceEntry.forIter item idx v],
                steps := st.steps + 1, tick := st.tick + 1 } =
              ({ vars := envSet st.vars item v,
                 trace := st.trace ++ [TraceEntry.forIter item idx v],
                 steps := st.steps + 2, tick := st.tick + 1 },
               .error "Step limit exceeded") := by
            rw [runBlock.eq_def]
            have hcl2 : checkLimits ctx
                { vars := envSet st.vars item v,
                  trace := st.trace ++ [TraceEntry.forIter item idx v],
                  steps := st.steps + 1, tick := st.tick + 1 } =
                ({ vars := envSet st.vars item v,
                   trace := st.trace ++ [TraceEntry.forIter item idx v],
                   steps := st.steps + 2, tick := st.tick + 1 },
                 .error "Step limit exceeded") := by
              simp [checkLimits, hstep2, Nat.add_assoc]
            rw [hcl2]
          rw [hrb]
          exact ⟨_, 1, rfl, by simp, by simp [forIterEntries]⟩
        · have hrb : runBlock ctx (.block [])
              { vars := envSet st.vars item v,
                trace := st.trace ++ [TraceEntry.forIter item idx v],
                steps := st.steps + 1, tick := st.tick + 1 } =
              ({ vars := envSet st.vars item v,
                 trace := st.trace ++ [TraceEntry.forIter item idx v],
                 steps := st.steps + 2, tick := st.tick + 2 },
               .ok .undef) := by
            rw [runBlock.eq_def]
            have hcl2 : checkLimits ctx
                { vars := envSet st.vars item v,
                  trace := st.trace ++ [TraceEntry.forIter item idx v],
                  steps := st.steps + 1, tick := st.tick + 1 } =
                ({ vars := envSet st.vars item v,
                   trace := st.trace ++ [TraceEntry.forIter item idx v],
                   steps := st.steps + 2, tick := st.tick + 2 },
                 .ok ()) := by
              simp [checkLimits, readClock, hstep2, hdl, Nat.add_assoc]
            rw [hcl2]
            dsimp only
            have hrs : runStmts ctx ([] : List Stmt)
                { vars := envSet st.vars item v,
                  trace := st.trace ++ [TraceEntry.forIter item idx v],
                  steps := st.steps + 2, tick := st.tick + 2 } =
                ({ vars := envSet st.vars item v,
                   trace := st.trace ++ [TraceEntry.forIter item idx v],
                   steps := st.steps + 2, tick := st.tick + 2 }, .ok none) := by
              rw [runStmts.eq_def]
            rw [hrs]
            rfl
          rw [hrb]
          dsimp only [isUndef]
          rw [if_pos rfl]
          obtain ⟨st', k, hrun, hk, htr⟩ := ih (idx + 1)
            { vars := envSet st.vars item v,
              trace := st.trace ++ [TraceEntry.forIter item idx v],
              steps := st.steps + 2, tick := st.tick + 2 }
            (by simp; omega)
            (by simp only [List.length_cons] at hgt; simp; omega)
          refine ⟨st', k + 1, hrun, by simp only [List.length_cons]; omega, ?_⟩
          rw [htr]
          simp [forIterEntries, List.take_succ_cons]

/-- A frozen wall clock (time never advances), used to isolate the step
ceiling from the deadline. -/
def constClock : ℕ → ℤ := fun _ => 0

/-- C6: for every loop length `N`, every positive step budget `m` below the
`2 + 2N` step units the plan requires, and every (ineffective, frozen-clock)
`deadlineMs` value `d`, the execution aborts with `ok=false` and the
step-limit error, the trace holding only the FOR_ITER entries recorded
before the abort (a prefix of the full run's entries); and omitting
`maxSteps` is the same as passing the default 1000. -/
theorem step_limit_aborts (N m d : ℕ) (caps : Capabilities)
    (hm : 1 ≤ m) (hN : m < 2 + 2 * N) :
    ((executeToolScript (forPlanN N) caps ⟨some m, some (d : ℤ), false⟩ constClock).ok = false ∧
     (executeToolScript (forPlanN N) caps ⟨some m, some (d : ℤ), false⟩ constClock).error =
       some "Step limit exceeded" ∧
     ∃ k, k ≤ N ∧
       (executeToolScript (forPlanN N) caps ⟨some m, some (d : ℤ), false⟩ constClock).trace =
         forIterEntries "i" 0
           (((natNums N).map JSONLike.num).take k)) ∧
    (∀ (plan : PlanNode) (caps2 : Capabilities) (dm : Option ℤ) (dr : Bool) (clock : ℕ → ℤ),
      executeToolScript plan caps2 ⟨none, dm, dr⟩ clock =
        executeToolScript plan caps2 ⟨some 1000, dm, dr⟩ clock) := by
  refine ⟨?_, fun plan caps2 dm dr clock => rfl⟩
  set ctx := mkCtx caps ⟨some m, some (d : ℤ), false⟩ constClock with hctx
  have hdl : ∀ t, pastDeadline ctx.deadline (ctx.clock t) = false :=
    fun t => pastDeadline_mkDeadline_nat d
  have hms : ctx.maxSteps = m := rfl
  have hA : checkLimits ctx initState =
      (({ vars := [], trace := [], steps := 1, tick := 2 } : ExecState), .ok ()) := by
    simp [checkLimits, readClock, initState, hdl 1, show ¬(0 + 1 > m) from by omega, hms]
  by_cases hm2 : 2 > m
  · have hB : checkLimits ctx ({ vars := [], trace := [], steps := 1, tick := 2 } : ExecState) =
        (({ vars := [], trace := [], steps := 2, tick := 2 } : ExecState),
         .error "Step limit exceeded") := by
      simp [checkLimits, hms, hm2]
    have hrs : runStmts ctx
        [.forS "i" (.arrV ((natNums N).map ValueE.number)) (.block [])]
        ({ vars := [], trace := [], steps := 1, tick := 2 } : ExecState) =
        (({ vars := [], trace := [], steps := 2, tick := 2 } : ExecState),
         .error "Step limit exceeded") := by
      rw [runStmts.eq_def, hB]
    have hrb : runBlock ctx (forPlanN N) initState =
        (({ vars := [], trace := [], steps := 2, tick := 2 } : ExecState),
         .error "Step limit exceeded") := by
      rw [runBlock.eq_def, hA]
      dsimp only [forPlanN]
      rw [hrs]
      rfl
    refine ⟨by simp [executeToolScript, hrb], by simp [executeToolScript, hrb],
      0, Nat.zero_le _, by simp [executeToolScript, hrb, forIterEntries]⟩
  · have hB : checkLimits ctx ({ vars := [], trace := [], steps := 1, tick := 2 } : ExecState) =
        (({ vars := [], trace := [], steps := 2, tick := 3 } : ExecState), .ok ()) := by
      simp [checkLimits, readClock, hdl 2, hms, show ¬(1 + 1 > m) from by omega]
    have hC : checkDeadline ctx ({ vars := [], trace := [], steps := 2, tick := 3 } : ExecState) =
        (({ vars := [], trace := [], steps := 2, tick := 4 } : ExecState), .ok ()) := by
      simp [checkDeadline, readClock, hdl 3]
    have hres : resolveValue ([] : Env)
        (.arrV ((natNums N).map ValueE.number)) =
        .ok (.arr ((natNums N).map JSONLike.num)) := by
      simp [resolveValue, resolveList_numbers, exceptBind_ok]
    obtain ⟨st', k, hrun, hk, htr⟩ := runFor_empty_body_abort ctx "i" hdl
      ((natNums N).map JSONLike.num) 0
      ({ vars := [], trace := [], steps := 2, tick := 4 } : ExecState)
      (by show (2 : ℕ) ≤ m; omega)
      (by show m < 2 + 2 * ((natNums N).map JSONLike.num).length
          rw [natNums_num_length]
          omega)
    have hstmt : runStmt ctx
        (.forS "i" (.arrV ((natNums N).map ValueE.number)) (.block []))
        ({ vars := [], trace := [], steps := 2, tick := 4 } : ExecState) =
        (st', .error "Step limit exceeded") := by
      rw [runStmt.eq_def]
      dsimp only
      rw [hres]
      dsimp only
      rw [hrun]
    have hrs : runStmts ctx
        [.forS "i" (.arrV ((natNums N).map ValueE.number)) (.block [])]
        ({ vars := [], trace := [], steps := 1, tick := 2 } : ExecState) =
        (st', .error "Step limit exceeded") := by
      rw [runStmts.eq_def, hB]
      dsimp only
      rw [hC]
      dsimp only
      rw [hstmt]
    have hrb : runBlock ctx (forPlanN N) initState = (st', .error "Step limit exceeded") := by
      rw [runBlock.eq_def, hA]
      dsimp only [forPlanN]
      rw [hrs]
      rfl
    refine ⟨by simp [executeToolScript, hrb], by simp [executeToolScript, hrb],
      k, ?_, ?_⟩
    · rw [natNums_num_length] at hk
      exact hk
    · simp only [executeToolScript, hrb]
      rw [htr]
      simp

/-- Witness for C6: a one-iteration loop with budget 3 (needing 4 step
units) aborts with the step-limit error. -/
theorem step_limit_aborts_witness :
    1 ≤ 3 ∧ 3 < 2 + 2 * 1 ∧
    ((executeToolScript (forPlanN 1) (fun _ => none) ⟨some 3, some (0 : ℤ), false⟩
        constClock).ok = false ∧
     (executeToolScript (forPlanN 1) (fun _ => none) ⟨some 3, some (0 : ℤ), false⟩
        constClock).error = some "Step limit exceeded" ∧
     ∃ k, k ≤ 1 ∧
       (executeToolScript (forPlanN 1) (fun _ => none) ⟨some 3, some (0 : ℤ), false⟩
          constClock).trace =
         forIterEntries "i" 0
           (((natNums 1).map JSONLike.num).take k)) :=
  ⟨by decide, by decide,
   (step_limit_aborts 1 3 0 (fun _ => none) (by decide) (by decide)).1⟩

end ToolScript
